import Mathlib

/-!
Verification development for the temporal automation scheduler of this
repository (`src/scheduler/aps_async_sun_scheduler.py`).

The Python module is shallowly embedded below:
* instants are modelled as `Int` seconds of local time, calendar dates as
  `Int` day numbers (days since 1970-01-01, computed by the standard civil
  calendar formulas) so that `datetime.combine(date, time)` becomes
  `dayNumber * 86400 + secondsOfDay`;
* the APScheduler job store, the `persist_id → job ids` index and the JSON
  persistence file become explicit fields of a `SchedState` record, and every
  method of `AsyncAPSunScheduler` becomes a state-passing function;
* the opaque user callbacks become identifiers (`Cb.user u`), the `add_any`
  wrapper closure becomes the `Cb.anyWrap` constructor, and the self-rearming
  closures (sun events, sun ranges, annual nth-weekday, holidays) are
  defunctionalised into the `JobKind` carried by each registered job, with
  `fireById` giving the single-firing semantics;
* `datetime.now` / `.date()` / `.year` and the astral sunrise/sunset oracle
  become fields of an explicit `Env`;
* fallible operations (`ValueError`s, persistence write failure) return a
  `Res` value instead of raising.
-/

namespace NuSched

/-- Wall-clock time of day, the embedding of a `datetime.time` value
(`datetime.time` validates `0 ≤ hour ≤ 23` etc.; `validHMS` states that). -/
structure HMS where
  hour : Int
  minute : Int
  second : Int
  deriving DecidableEq, Repr

def validHMS (t : HMS) : Bool :=
  0 ≤ t.hour && t.hour ≤ 23 && 0 ≤ t.minute && t.minute ≤ 59 && 0 ≤ t.second && t.second ≤ 59

def HMS.secs (t : HMS) : Int := t.hour * 3600 + t.minute * 60 + t.second

/-- Duration dictionary `{"hours": h, "minutes": m, "seconds": s}`, the input of
`_to_td` (missing keys default to 0, modelled by the caller filling 0). -/
structure Dur where
  hours : Int
  minutes : Int
  seconds : Int
  deriving DecidableEq, Repr

/-- `_to_td`: `timedelta(hours=..., minutes=..., seconds=...)` in seconds. -/
def Dur.secs (d : Dur) : Int := d.hours * 3600 + d.minutes * 60 + d.seconds

/-- `datetime.combine(base_date, t)` as an instant, with `base` a day number. -/
def combine (base : Int) (t : HMS) : Int := base * 86400 + t.secs

/-! ### `_parse_hhmmss` (source lines 40-47)

```python
def _parse_hhmmss(s: str) -> time:
    try:
        p = [int(x) for x in s.split(":")]
        if len(p) == 2: return time(p[0], p[1], 00)
        if len(p) == 3: return time(p[0], p[1], p[2])
    except ValueError:
        print(...)
        return time.now()
```

`time(...)` raises `ValueError` on an out-of-range component; that
`ValueError` (like one from `int(x)`) is caught, and the handler then
evaluates `time.now()` — `datetime.time` has no `now` attribute, so an
`AttributeError` escapes.  With 1 or more than 3 components no branch
matches and the function falls through, returning `None`. -/

/-- Possible outcomes of calling `_parse_hhmmss`. -/
inductive PyTimeRes where
  /-- a `datetime.time` value was returned -/
  | ok (t : HMS)
  /-- the function fell through and returned `None` -/
  | noneV
  /-- an `AttributeError` escaped from the `except ValueError` handler
  (`time.now()` does not exist) -/
  | raisedAttr
  deriving DecidableEq, Repr

/-- `time(h, m, s)`: `some` value or `none` for the `ValueError` case. -/
def mkTime (h m s : Int) : Option HMS :=
  if validHMS ⟨h, m, s⟩ then some ⟨h, m, s⟩ else none

/-- `_parse_hhmmss` after the `[int(x) for x in s.split(":")]` step: the
behaviour of source lines 43-47 on the list of integer components. -/
def parseParts : List Int → PyTimeRes
  | [a, b] =>
    match mkTime a b 0 with
    | some t => .ok t
    | none => .raisedAttr
  | [a, b, c] =>
    match mkTime a b c with
    | some t => .ok t
    | none => .raisedAttr
  | _ => .noneV

/-- `int(x)` on a plain numeric string: optional sign followed by a nonempty
digit run (the subset of CPython's `int` grammar exercised here); `none` is
the `ValueError` case. -/
def pyInt? (s : String) : Option Int :=
  let core (ds : List Char) (sign : Int) : Option Int :=
    if ds ≠ [] && ds.all Char.isDigit then
      some (sign * (ds.foldl (fun a c => a * 10 + (c.toNat - '0'.toNat)) (0 : Nat) : Nat))
    else none
  match s.toList with
  | '-' :: rest => core rest (-1)
  | '+' :: rest => core rest 1
  | l => core l 1

/-- `s.split(":")` on the character list (Python single-character split:
`"".split(":") == [""]`, consecutive separators give empty components). -/
def splitColon : List Char → List (List Char)
  | [] => [[]]
  | c :: rest =>
    match splitColon rest with
    | [] => [[c]]
    | g :: gs => if c == ':' then [] :: g :: gs else (c :: g) :: gs

/-- `int(x)` on a component given as a character list. -/
def pyIntL (l : List Char) : Option Int := pyInt? (String.mk l)

/-- `_parse_hhmmss` on the raw string: splitting on `":"`, a failing `int()`
takes the same `except ValueError` path that ends in the `AttributeError`. -/
def parse_hhmmss (s : String) : PyTimeRes :=
  match (splitColon s.toList).mapM pyIntL with
  | none => .raisedAttr
  | some parts => parseParts parts

/-! ### Civil calendar (`date`, `calendar` usage)

Day numbers relative to 1970-01-01, by the standard days-from-civil
computation; `weekdayOf` matches Python's `date.weekday` (Monday = 0,
1970-01-01 was a Thursday = 3). -/

def isLeap (y : Int) : Bool :=
  y % 4 == 0 && (y % 100 != 0 || y % 400 == 0)

def daysInMonth (y m : Int) : Int :=
  if m == 1 then 31 else if m == 2 then (if isLeap y then 29 else 28)
  else if m == 3 then 31 else if m == 4 then 30 else if m == 5 then 31
  else if m == 6 then 30 else if m == 7 then 31 else if m == 8 then 31
  else if m == 9 then 30 else if m == 10 then 31 else if m == 11 then 30
  else 31

/-- Day number (days since 1970-01-01) of the civil date `y-m-d`. -/
def daysFromCivil (y m d : Int) : Int :=
  let y' := if m ≤ 2 then y - 1 else y
  let era := Int.fdiv y' 400
  let yoe := y' - era * 400
  let mp := if m > 2 then m - 3 else m + 9
  let doy := Int.fdiv (153 * mp + 2) 5 + d - 1
  let doe := yoe * 365 + Int.fdiv yoe 4 - Int.fdiv yoe 100 + doy
  era * 146097 + doe - 719468

/-- `date.weekday()` for a day number: Monday = 0 … Sunday = 6. -/
def weekdayOf (dayNum : Int) : Int := Int.emod (dayNum + 3) 7

/-- A calendar date as it appears in specs (`"Y/M/D"` after `_parse_date`). -/
structure Ymd where
  y : Int
  m : Int
  d : Int
  deriving DecidableEq, Repr

def Ymd.days (x : Ymd) : Int := daysFromCivil x.y x.m x.d

/-! ### `SunProvider._get_cached` (source lines 75-88)

The cache maps `(date, "sunrise"|"sunset")` keys to instants.  On a miss the
computed value is stored and then every entry whose date is more than 5 days
before today (`(kd - today).days < -5`) is popped; on a hit nothing changes.
Python `dict` insertion order is an association list with unique keys. -/

abbrev SunCache := List ((Int × String) × Int)

def cacheFind (c : SunCache) (k : Int × String) : Option Int :=
  match c.find? (fun e => e.1 == k) with
  | some e => some e.2
  | none => none

/-- `_get_cached`, with the computed value passed in (the `compute()` thunk
result) and `today` the current date in the provider's zone. -/
def get_cached (today : Int) (c : SunCache) (k : Int × String) (computed : Int) :
    Int × SunCache :=
  match cacheFind c k with
  | some dt => (dt, c)
  | none =>
    let c1 := c ++ [(k, computed)]
    (computed, c1.filter (fun e => !(decide (e.1.1 - today < -5))))

/-! ### `_nth_weekday_of_month` (source lines 106-116)

`calendar.Calendar().itermonthdates(year, month)` filtered to the month and
the weekday is exactly the in-order list of the month's days that fall on
that weekday; `days[-1]` on an empty list raises `IndexError`. -/

/-- Error outcomes of the embedded fallible operations. -/
inductive Err where
  /-- `ValueError` (invalid weekday name, unsupported spec shape, `n` out of
  range, …) -/
  | valueErr
  /-- `IndexError` (`days[-1]` on an empty list) -/
  | indexErr
  /-- a persistence write to disk failed and the exception surfaced -/
  | persistFail
  /-- `ValueError("Unsupported schedule spec")` from `add`'s dispatch -/
  | unsupportedSpec
  /-- `ValueError` for an unknown holiday provider -/
  | unknownProvider
  deriving DecidableEq, Repr

/-- Result of a fallible embedded operation (`Except` with decidable
equality). -/
inductive Res (α : Type) where
  | ok (a : α)
  | err (e : Err)
  deriving DecidableEq, Repr

/-- The in-order list of days `d` of month `y-m` with `weekday() == w`. -/
def monthWeekdayDays (y m w : Int) : List Int :=
  (List.range (daysInMonth y m).toNat).filterMap (fun i =>
    let d : Int := (i : Int) + 1
    if weekdayOf (daysFromCivil y m d) == w then some d else none)

/-- `_nth_weekday_of_month year month weekday n`, returning the day of month. -/
def nth_weekday_of_month (y m w n : Int) : Res Int :=
  if !(1 ≤ m && m ≤ 12) then .err .valueErr
  else
    let days := monthWeekdayDays y m w
    if n == -1 then
      match days.getLast? with
      | some d => .ok d
      | none => .err .indexErr
    else if n < 1 || n > days.length then .err .valueErr
    else
      match days.get? (n - 1).toNat with
      | some d => .ok d
      | none => .err .indexErr

/-! ### Schedule specification AST

The dict shapes accepted by `add` / `_schedule_at` / `_schedule_range` /
`_schedule_weekly`, as a tagged union following the source's dispatch order
(`"at"`, then `"from"`, then `"weekly"`; inside `at`: `date`+`time`, then
`time`, then `sunrise`/`sunset`). -/

/-- The `at` sub-dict. `sunAt true off` is `{"sunrise": off}`,
`sunAt false off` is `{"sunset": off}`. -/
inductive AtSpec where
  | dateTime (d : Ymd) (t : HMS)
  | timeOnly (t : HMS)
  | sunAt (sunrise : Bool) (off : Int)
  deriving DecidableEq, Repr

/-- Start anchor of a recurring `from` dict (`time` / `sunrise` / `sunset`). -/
inductive FAnchor where
  | ftime (t : HMS)
  | fsunrise (off : Int)
  | fsunset (off : Int)
  deriving DecidableEq, Repr

/-- End anchor inside a `to` dict. -/
inductive TAnchor where
  | ttime (t : HMS)
  | tsunrise (off : Int)
  | tsunset (off : Int)
  deriving DecidableEq, Repr

/-- A `to` dict of a recurring range: `to.get("day", 0)` day shift, one
anchor, and whether a `"date"` key is present (which disables the
midnight-rollover branch at source line 400). -/
structure ToSpec where
  day : Int
  anchor : TAnchor
  hasDate : Bool
  deriving DecidableEq, Repr

/-- End of a recurring `from` dict: a `"for"` duration or a `"to"` dict. -/
inductive REnd where
  | rfor (dur : Dur)
  | rto (ts : ToSpec)
  deriving DecidableEq, Repr

/-- A recurring (date-less) `from` dict. -/
structure RecurFrom where
  anchor : FAnchor
  rend : REnd
  deriving DecidableEq, Repr

/-- End of an explicit date+time range (forms 10 and 11). -/
inductive OnceEnd where
  | oFor (dur : Dur)
  | oTo (d : Ymd) (t : HMS)
  deriving DecidableEq, Repr

/-- A `from` dict: explicit date+time one-off range, or recurring. -/
inductive FromSpec where
  | once (d : Ymd) (t : HMS) (e : OnceEnd)
  | recur (rf : RecurFrom)
  deriving DecidableEq, Repr

/-- End of a weekly window (`from.to.time` or `from.for`). -/
inductive WEnd where
  | wTo (t : HMS)
  | wFor (dur : Dur)
  deriving DecidableEq, Repr

/-- A `weekly` dict: comma-split day names, `from.time`, and the end. -/
structure WeeklySpec where
  days : List String
  time : HMS
  wend : WEnd
  deriving DecidableEq, Repr

/-- A schedule specification handled by `add`. -/
inductive Spec where
  | atS (a : AtSpec)
  | range (f : FromSpec)
  | weekly (w : WeeklySpec)
  deriving DecidableEq, Repr

/-- `DOW_NAME_TO_APS` (source lines 56-58) as a partial map to cron day
numbers. -/
def dowMap : String → Option Int
  | "mon" => some 0
  | "tue" => some 1
  | "wed" => some 2
  | "thu" => some 3
  | "fri" => some 4
  | "sat" => some 5
  | "sun" => some 6
  | _ => none

/-! ### Environment

The ambient facts a run of the scheduler observes: `datetime.now(tz)` (as
instant, date and year), the astral sunrise/sunset oracle, the registered
holiday providers, and whether persistence writes succeed. -/

/-- A holiday event (`HolidayEvent`), with its date as a day number. -/
structure HolidayEv where
  date : Int
  title : String
  category : String
  deriving DecidableEq, Repr

structure Env where
  /-- `datetime.now(self.tz)` as an instant -/
  now : Int
  /-- `datetime.now(self.tz).date()` as a day number -/
  today : Int
  /-- `datetime.now(self.tz).year` -/
  year : Int
  /-- `self.sun.sunrise(d)` for day number `d` -/
  sunrise : Int → Int
  /-- `self.sun.sunset(d)` for day number `d` -/
  sunset : Int → Int
  /-- registered holiday providers: name to year-indexed event lists -/
  holidays : String → Option (Int → List HolidayEv)
  /-- whether `_persist_write` succeeds (false = the write raises) -/
  persistOk : Bool

/-! ### Scheduler state

`jobs` is the APScheduler job store (job ids are the `Nat`s a fresh counter
hands out, standing for the uuid hex strings APScheduler generates — in
particular a descriptive return string such as `"sun-at:…"` is never a job
id, which the `JHandle` type makes explicit).  `index` is `_persist_index`,
`store` is the `{"specs": [...]}` persistence file. -/

/-- The defunctionalised callback attached to a job: a caller callback, or
`add_any`'s `on_trigger` wrapper around one. -/
inductive Cb where
  | user (u : Nat)
  | anyWrap (inner : Cb)
  deriving DecidableEq, Repr

/-- A trigger: one-shot `DateTrigger(run_date)`, or a `CronTrigger` with
optional day-of-week set, optional month/day constraint, and a time. -/
inductive Trig where
  | atDate (runAt : Int)
  | cron (dow : Option (List Int)) (month : Option Int) (day : Option Int)
      (h m s : Int)
  deriving DecidableEq, Repr

/-- End of a holiday window (`to_time_hhmm` or `duration`). -/
inductive HolWEnd where
  | hTo (t : HMS)
  | hFor (dur : Dur)
  deriving DecidableEq, Repr

/-- What a job does when it fires, i.e. which closure the source registered:
a plain payload delivery, or one of the self-rearming chains. -/
inductive JobKind where
  /-- `_add_date_job` / `_add_cron_job` with a plain payload of this phase -/
  | plain (startPhase : Bool)
  /-- the cron start job of a time-anchored recurring range
  (`_schedule_range`, source lines 405-414): fires start, registers the end
  one-shot from `compute_window(today)` -/
  | dailyRange (rf : RecurFrom)
  /-- weekly cron start with explicit end time (source lines 450-461) -/
  | weeklyTo (startT endT : HMS)
  /-- weekly cron start with duration (source lines 463-472) -/
  | weeklyFor (startT : HMS) (dur : Dur)
  /-- sun-event one-shot chain (`_schedule_at`, source lines 340-356) -/
  | sunAtK (sunrise : Bool) (off : Int)
  /-- sun-involved range one-shot chain (source lines 417-431); carries the
  end instant the registering closure captured -/
  | sunRange (rf : RecurFrom) (endAt : Int)
  /-- annual nth-weekday one-shot chain (source lines 588-607) -/
  | annualNth (month w nth : Int) (t : HMS) (year : Int)
  /-- holiday-at one-shot chain (source lines 489-522) -/
  | holAt (prov : String) (t : HMS) (titleC : Option String)
      (cats : Option (List String)) (ya : Int) (year : Int)
  /-- holiday-window one-shot chain (source lines 524-569); carries the end
  instant the registering closure captured -/
  | holWin (prov : String) (tFrom : HMS) (wend : HolWEnd)
      (titleC : Option String) (cats : Option (List String)) (ya : Int)
      (year : Int) (endAt : Int)
  deriving DecidableEq, Repr

structure Job where
  id : Nat
  pid : Option String
  cb : Cb
  trig : Trig
  kind : JobKind
  deriving DecidableEq, Repr

/-- A value in the `List[str]` that `add`/`add_any` return: a genuine job id
or a descriptive string such as `"sun-at:…"`. -/
inductive JHandle where
  | real (n : Nat)
  | descr (s : String)
  deriving DecidableEq, Repr

/-- Caller metadata, a string-keyed dict in insertion order. -/
abbrev Meta := List (String × String)

/-- `dict.setdefault(k, v)`. -/
def setdefault (m : Meta) (k v : String) : Meta :=
  if (m.find? (fun e => e.1 == k)).isSome then m else m ++ [(k, v)]

/-- A record of the persistence file: `{"id": …, "spec": …, "meta": …}`.
The spec payload carries the `_kind` discriminant. -/
inductive PSpec where
  | plain (s : Spec)
  | anyKind (children : List Spec)
  | annualFixed (month day : Int) (t : HMS)
  | annualDates (dates : List (Int × Int)) (t : HMS)
  | annualNthK (month w nth : Int) (t : HMS)
  | holidayAtK (prov : String) (t : HMS) (titleC : Option String)
      (cats : Option (List String)) (ya : Int)
  | holidayWindowK (prov : String) (tFrom : HMS) (wend : HolWEnd)
      (titleC : Option String) (cats : Option (List String)) (ya : Int)
  deriving DecidableEq, Repr

structure PRec where
  id : String
  spec : PSpec
  meta : Meta
  deriving DecidableEq, Repr

structure SchedState where
  jobs : List Job
  index : List (String × List Nat)
  store : List PRec
  fresh : Nat
  deriving DecidableEq, Repr

def emptyState : SchedState := ⟨[], [], [], 0⟩

/-- `_index_jobs` (source lines 223-226): `setdefault(pid, set()).add(jid)`. -/
def indexJobs (pid : Option String) (jid : Nat) (idx : List (String × List Nat)) :
    List (String × List Nat) :=
  match pid with
  | none => idx
  | some p =>
    if idx.any (fun e => e.1 == p) then
      idx.map (fun e =>
        if e.1 == p then (e.1, if e.2.contains jid then e.2 else e.2 ++ [jid]) else e)
    else idx ++ [(p, [jid])]

/-- Shared body of `_add_date_job` / `_add_cron_job`: create the job with a
fresh id, append it to the job store and index it. -/
def mkJob (st : SchedState) (pid : Option String) (cb : Cb) (trig : Trig)
    (k : JobKind) : Job × SchedState :=
  let j : Job := ⟨st.fresh, pid, cb, trig, k⟩
  (j, { st with
          jobs := st.jobs ++ [j]
          fresh := st.fresh + 1
          index := indexJobs pid st.fresh st.index })

/-- `_persist_upsert` (source lines 215-221): drop any record with the id,
append the new one; `none` id is a no-op, and a failing `_persist_write`
(modelled by `env.persistOk = false`) leaves the file unchanged and reports
failure. -/
def persistUpsert (env : Env) (pid : Option String) (ps : PSpec) (meta : Meta)
    (st : SchedState) : SchedState × Bool :=
  match pid with
  | none => (st, true)
  | some p =>
    if env.persistOk then
      ({ st with store := st.store.filter (fun r => !(r.id == p)) ++ [⟨p, ps, meta⟩] }, true)
    else (st, false)

/-! ### `compute_window` and the range/sun scheduling paths -/

/-- The raw end instant of a recurring range's `to` dict before the
midnight-rollover check (source lines 389-399): day-shifted base date with
the chosen anchor. -/
def rawToEnd (env : Env) (ts : ToSpec) (base : Int) : Int :=
  let toDate := base + ts.day
  match ts.anchor with
  | .ttime t => combine toDate t
  | .tsunrise off => env.sunrise toDate + off
  | .tsunset off => env.sunset toDate + off

/-- The start instant of a recurring range (source lines 378-385). -/
def anchorStart (env : Env) (a : FAnchor) (base : Int) : Int :=
  match a with
  | .ftime t => combine base t
  | .fsunrise off => env.sunrise base + off
  | .fsunset off => env.sunset base + off

/-- `compute_window(base)` (source lines 377-402): start from the anchor,
end from `for` or `to`, with one day added when the end is not after the
start and the `to` dict has no `date` key. -/
def computeWindow (env : Env) (rf : RecurFrom) (base : Int) : Int × Int :=
  let start := anchorStart env rf.anchor base
  match rf.rend with
  | .rfor dur => (start, start + dur.secs)
  | .rto ts =>
    let e0 := rawToEnd env ts base
    (start, if e0 ≤ start && !ts.hasDate then e0 + 86400 else e0)

/-- The end instant the weekly `on_start` closures compute (source lines
453-457 and 466-468): same-day clock end rolled past midnight when not
after the start, or start plus duration. -/
def weeklyToEnd (today : Int) (t1 t2 : HMS) : Int :=
  let s := combine today t1
  let e0 := combine today t2
  if e0 ≤ s then e0 + 86400 else e0

/-- `schedule_today_or_tomorrow`'s window choice (source lines 417-421):
today's window, or tomorrow's when today's start has already passed. -/
def nextWindow (env : Env) (rf : RecurFrom) : Int × Int :=
  let w := computeWindow env rf env.today
  if w.1 ≤ env.now then computeWindow env rf (env.today + 1) else w

/-- `schedule_next`'s instant for a sun-event `at` spec (source lines
342-349): today's sun event plus offset, or tomorrow's when passed. -/
def sunNextAt (env : Env) (sunrise : Bool) (off : Int) : Int :=
  let dt := (if sunrise then env.sunrise env.today else env.sunset env.today) + off
  if dt ≤ env.now then
    (if sunrise then env.sunrise (env.today + 1) else env.sunset (env.today + 1)) + off
  else dt

/-- The condition of source line 405: `"time" in frm and ("for" in frm or
("to" in frm and "time" in frm["to"]))`, returning the start time when it
holds. -/
def cronRangeTime (rf : RecurFrom) : Option HMS :=
  match rf.anchor, rf.rend with
  | .ftime t, .rfor _ => some t
  | .ftime t, .rto ts =>
    match ts.anchor with
    | .ttime _ => some t
    | _ => none
  | _, _ => none

/-- `_schedule_at` (source lines 327-358). -/
def scheduleAt (env : Env) (a : AtSpec) (cb : Cb) (pid : Option String)
    (st : SchedState) : SchedState × List JHandle :=
  match a with
  | .dateTime d t =>
    let (j, st') := mkJob st pid cb (.atDate (combine d.days t)) (.plain true)
    (st', [.real j.id])
  | .timeOnly t =>
    let (j, st') := mkJob st pid cb (.cron none none none t.hour t.minute t.second)
      (.plain true)
    (st', [.real j.id])
  | .sunAt w off =>
    let dt := sunNextAt env w off
    let (_, st') := mkJob st pid cb (.atDate dt) (.sunAtK w off)
    (st', [.descr ("sun-at:" ++ toString dt)])

/-- `_schedule_range` (source lines 361-433). -/
def scheduleRange (env : Env) (f : FromSpec) (cb : Cb) (pid : Option String)
    (st : SchedState) : SchedState × List JHandle :=
  match f with
  | .once d t e =>
    let startDt := combine d.days t
    let endDt :=
      match e with
      | .oFor dur => startDt + dur.secs
      | .oTo d2 t2 => combine d2.days t2
    let (j1, st1) := mkJob st pid cb (.atDate startDt) (.plain true)
    let (j2, st2) := mkJob st1 pid cb (.atDate endDt) (.plain false)
    (st2, [.real j1.id, .real j2.id])
  | .recur rf =>
    match cronRangeTime rf with
    | some t =>
      let (j, st') := mkJob st pid cb (.cron none none none t.hour t.minute t.second)
        (.dailyRange rf)
      (st', [.real j.id])
    | none =>
      let w := nextWindow env rf
      let (_, st') := mkJob st pid cb (.atDate w.1) (.sunRange rf w.2)
      (st', [.descr ("sun-range:" ++ toString w.1)])

/-- `_schedule_weekly` (source lines 436-474): validate the day names, then
register the weekly cron start job carrying the end rule. -/
def scheduleWeekly (_env : Env) (w : WeeklySpec) (cb : Cb) (pid : Option String)
    (st : SchedState) : SchedState × Res (List JHandle) :=
  match w.days.mapM dowMap with
  | none => (st, .err .valueErr)
  | some ds =>
    let trig := Trig.cron (some ds) none none w.time.hour w.time.minute w.time.second
    match w.wend with
    | .wTo t2 =>
      let (j, st') := mkJob st pid cb trig (.weeklyTo w.time t2)
      (st', .ok [.real j.id])
    | .wFor dur =>
      let (j, st') := mkJob st pid cb trig (.weeklyFor w.time dur)
      (st', .ok [.real j.id])

/-- The dispatch part of `add` (source lines 234-241), before the persistence
upsert. -/
def addSched (env : Env) (spec : Spec) (cb : Cb) (pid : Option String)
    (st : SchedState) : SchedState × Res (List JHandle) :=
  match spec with
  | .atS a =>
    let (st', hs) := scheduleAt env a cb pid st
    (st', .ok hs)
  | .range f =>
    let (st', hs) := scheduleRange env f cb pid st
    (st', .ok hs)
  | .weekly w => scheduleWeekly env w cb pid st

/-- `add` (source lines 229-243): build `meta_with_id`, dispatch, then
upsert the spec; a dispatch error skips the upsert, an upsert failure
surfaces after the jobs are already registered. -/
def add (env : Env) (spec : Spec) (cb : Cb) (meta : Meta) (pid : Option String)
    (st : SchedState) : SchedState × Res (List JHandle) :=
  let metaW :=
    match pid with
    | some p => setdefault meta "persist_id" p
    | none => meta
  match addSched env spec cb pid st with
  | (st1, .err e) => (st1, .err e)
  | (st1, .ok hs) =>
    let (st2, okW) := persistUpsert env pid (.plain spec) metaW st1
    if okW then (st2, .ok hs) else (st2, .err .persistFail)

/-- The derived child id `f"{persist_id}#{i}"`. -/
def childId (p : String) (i : Nat) : String := p ++ "#" ++ toString i

/-- The loop of `add_any` (source lines 253-257): each child spec is added
under the wrapper callback and the derived child id. -/
def addAnyGo (env : Env) (cbW : Cb) (meta : Meta) (pid : Option String) :
    Nat → List Spec → SchedState → List JHandle →
    SchedState × Res (List JHandle)
  | _, [], st, acc => (st, .ok acc)
  | i, c :: cs, st, acc =>
    let cid := pid.map (fun p => childId p i)
    match add env c cbW meta cid st with
    | (st', .ok ids) => addAnyGo env cbW meta pid (i + 1) cs st' (acc ++ ids)
    | (st', .err e) => (st', .err e)

/-- `add_any` (source lines 245-261). -/
def addAny (env : Env) (children : List Spec) (cb : Cb) (meta : Meta)
    (pid : Option String) (st : SchedState) : SchedState × Res (List JHandle) :=
  match addAnyGo env (.anyWrap cb) meta pid 0 children st [] with
  | (st1, .err e) => (st1, .err e)
  | (st1, .ok ids) =>
    match pid with
    | none => (st1, .ok ids)
    | some p =>
      let (st2, okW) := persistUpsert env (some p) (.anyKind children) meta st1
      if okW then (st2, .ok ids) else (st2, .err .persistFail)

/-! ### Removal -/

/-- `a.startswith(b)` (string prefix, computed on the character lists). -/
def startsWith (b a : String) : Bool := b.toList.isPrefixOf a.toList

/-- The id match of `remove_persisted_by_id`'s index sweep (source line 271):
`pid == persist_id or (pid.startswith(persist_id) and
pid[len(persist_id):].startswith("#"))`, i.e. equal or extending the id
past a `"#"`. -/
def pidMatch (x p : String) : Bool := p == x || startsWith (x ++ "#") p

/-- The record match of the on-disk sweep (source line 282). -/
def recMatch (x : String) (rid : String) : Bool :=
  rid == x || startsWith (x ++ "#") rid

/-- `remove_persisted_by_id` (source lines 263-283): collect the job ids of
every matching index entry and drop those entries, remove those jobs
(`remove_job` of an unknown id is swallowed), then filter the persistence
records. -/
def removePersistedById (x : String) (st : SchedState) : SchedState :=
  let matched := st.index.filter (fun e => pidMatch x e.1)
  let toRemove := matched.foldl (fun acc e => acc ++ e.2) []
  { st with
      index := st.index.filter (fun e => !(pidMatch x e.1))
      jobs := st.jobs.filter (fun j => !(toRemove.contains j.id))
      store := st.store.filter (fun r => !(recMatch x r.id)) }

/-- `cancel` (source lines 285-293): for each handle, remove the job if it
exists and discard the id from every index set; a failing `remove_job`
(unknown id, or a descriptive non-id string) skips the discard too. -/
def cancelOne (st : SchedState) (h : JHandle) : SchedState :=
  match h with
  | .descr _ => st
  | .real n =>
    if st.jobs.any (fun j => j.id == n) then
      { st with
          jobs := st.jobs.filter (fun j => !(j.id == n))
          index := st.index.map (fun e => (e.1, e.2.filter (fun m => !(m == n)))) }
    else st

def cancel (hs : List JHandle) (st : SchedState) : SchedState :=
  hs.foldl cancelOne st

/-! ### Annual recurring-day API (source lines 572-607) -/

/-- `add_annual_fixed_day`: one month+day cron job, then upsert. -/
def addAnnualFixedDay (env : Env) (month day : Int) (t : HMS) (cb : Cb)
    (meta : Meta) (pid : Option String) (st : SchedState) :
    SchedState × Res (List JHandle) :=
  let (j, st1) := mkJob st pid cb (.cron none (some month) (some day) t.hour t.minute t.second)
    (.plain true)
  let (st2, okW) := persistUpsert env pid (.annualFixed month day t) meta st1
  if okW then (st2, .ok [.real j.id]) else (st2, .err .persistFail)

/-- `add_annual_dates`: one cron job per (month, day), then upsert. -/
def addAnnualDates (env : Env) (dates : List (Int × Int)) (t : HMS) (cb : Cb)
    (meta : Meta) (pid : Option String) (st : SchedState) :
    SchedState × Res (List JHandle) :=
  let step := fun (acc : SchedState × List JHandle) (md : Int × Int) =>
    let (j, st') := mkJob acc.1 pid cb
      (.cron none (some md.1) (some md.2) t.hour t.minute t.second) (.plain true)
    (st', acc.2 ++ [JHandle.real j.id])
  let (st1, ids) := dates.foldl step (st, [])
  let (st2, okW) := persistUpsert env pid (.annualDates dates t) meta st1
  if okW then (st2, .ok ids) else (st2, .err .persistFail)

/-- The `weekday` argument of `add_annual_nth_weekday` (`int | str`). -/
inductive WkArg where
  | wint (n : Int)
  | wstr (s : String)
  deriving DecidableEq, Repr

/-- `_weekday_to_int` (source lines 610-619). -/
def weekdayToInt : WkArg → Res Int
  | .wint n => if 0 ≤ n && n ≤ 6 then .ok n else .err .valueErr
  | .wstr s =>
    match dowMap s.trim.toLower with
    | some n => .ok n
    | none => .err .valueErr

/-- `schedule_year` of `add_annual_nth_weekday` (source lines 593-600):
compute the year's occurrence, register a one-shot chain job at it, return
its instant. -/
def scheduleNthYear (_env : Env) (month w nth : Int) (t : HMS) (cb : Cb)
    (pid : Option String) (year : Int) (st : SchedState) : SchedState × Res Int :=
  match nth_weekday_of_month year month w nth with
  | .err e => (st, .err e)
  | .ok d =>
    let runDt := combine (daysFromCivil year month d) t
    let (_, st') := mkJob st pid cb (.atDate runDt) (.annualNth month w nth t year)
    (st', .ok runDt)

/-- `add_annual_nth_weekday` (source lines 588-607): register the current
year's occurrence unconditionally; when its instant has not stayed ahead of
`now`, additionally register next year's; upsert; return a descriptive
string, not a job id. -/
def addAnnualNthWeekday (env : Env) (month : Int) (wk : WkArg) (nth : Int)
    (t : HMS) (cb : Cb) (meta : Meta) (pid : Option String) (st : SchedState) :
    SchedState × Res (List JHandle) :=
  match weekdayToInt wk with
  | .err e => (st, .err e)
  | .ok w =>
    match scheduleNthYear env month w nth t cb pid env.year st with
    | (st1, .err e) => (st1, .err e)
    | (st1, .ok firstDt) =>
      let next :=
        if firstDt ≤ env.now then scheduleNthYear env month w nth t cb pid (env.year + 1) st1
        else (st1, .ok firstDt)
      match next with
      | (st2, .err e) => (st2, .err e)
      | (st2, .ok _) =>
        let (st3, okW) := persistUpsert env pid (.annualNthK month w nth t) meta st2
        if okW then
          (st3, .ok [.descr ("annual-nth-weekday:" ++ toString month ++ ":" ++ toString w
            ++ ":" ++ toString nth)])
        else (st3, .err .persistFail)

/-! ### Holiday API (source lines 489-569) -/

/-- List-infix test used to embed Python's `substring in string`. -/
def isInfixB (xs ys : List Char) : Bool :=
  ys.tails.any (fun suf => xs.isPrefixOf suf)

/-- The `match` filter of the holiday adders (source lines 498-504): a falsy
(`None` or empty) filter is skipped. -/
def hmatch (titleC : Option String) (cats : Option (List String))
    (ev : HolidayEv) : Bool :=
  let ok1 :=
    match titleC with
    | some tc => if tc == "" then true else isInfixB tc.toLower.toList ev.title.toLower.toList
    | none => true
  let ok2 :=
    match cats with
    | some cs => if cs.isEmpty then true else cs.contains ev.category
    | none => true
  ok1 && ok2

/-- One `schedule_for_year(yr)` pass of `add_holiday_at` (source lines
506-515): a one-shot chain job per matching event of the year. -/
def holAtYearJobs (env : Env) (prov : String) (t : HMS) (titleC : Option String)
    (cats : Option (List String)) (ya : Int) (cb : Cb) (pid : Option String)
    (year : Int) (st : SchedState) : SchedState × List JHandle :=
  match env.holidays prov with
  | none => (st, [])
  | some f =>
    ((f year).filter (hmatch titleC cats)).foldl
      (fun acc ev =>
        let (j, st') := mkJob acc.1 pid cb (.atDate (combine ev.date t))
          (.holAt prov t titleC cats ya year)
        (st', acc.2 ++ [JHandle.real j.id]))
      (st, [])

/-- `add_holiday_at` (source lines 489-522): unknown provider is a
`ValueError`; otherwise one pass per year in
`range(start_year, start_year + years_ahead + 1)`, then upsert. -/
def addHolidayAt (env : Env) (prov : String) (t : HMS) (cb : Cb)
    (titleC : Option String) (cats : Option (List String)) (ya : Int)
    (meta : Meta) (pid : Option String) (st : SchedState) :
    SchedState × Res (List JHandle) :=
  match env.holidays prov with
  | none => (st, .err .unknownProvider)
  | some _ =>
    let (st1, ids) := (List.range (ya + 1).toNat).foldl
      (fun acc i =>
        let (st', ids') := holAtYearJobs env prov t titleC cats ya cb pid
          (env.year + (i : Int)) acc.1
        (st', acc.2 ++ ids'))
      (st, [])
    let (st2, okW) := persistUpsert env pid (.holidayAtK prov t titleC cats ya) meta st1
    if okW then (st2, .ok ids) else (st2, .err .persistFail)

/-- The start/end instants of one holiday-window occurrence (source lines
548-555): same-day clock window with the midnight rollover, or a duration. -/
def holWindowInstants (evDate : Int) (tFrom : HMS) (wend : HolWEnd) : Int × Int :=
  let s := combine evDate tFrom
  match wend with
  | .hTo t2 =>
    let e0 := combine evDate t2
    (s, if e0 ≤ s then e0 + 86400 else e0)
  | .hFor dur => (s, s + dur.secs)

/-- One `schedule_for_year(yr)` pass of `add_holiday_window` (source lines
543-562). -/
def holWinYearJobs (env : Env) (prov : String) (tFrom : HMS) (wend : HolWEnd)
    (titleC : Option String) (cats : Option (List String)) (ya : Int) (cb : Cb)
    (pid : Option String) (year : Int) (st : SchedState) :
    SchedState × List JHandle :=
  match env.holidays prov with
  | none => (st, [])
  | some f =>
    ((f year).filter (hmatch titleC cats)).foldl
      (fun acc ev =>
        let w := holWindowInstants ev.date tFrom wend
        let (j, st') := mkJob acc.1 pid cb (.atDate w.1)
          (.holWin prov tFrom wend titleC cats ya year w.2)
        (st', acc.2 ++ [JHandle.real j.id]))
      (st, [])

/-- `add_holiday_window` (source lines 524-569). -/
def addHolidayWindow (env : Env) (prov : String) (tFrom : HMS) (wend : HolWEnd)
    (cb : Cb) (titleC : Option String) (cats : Option (List String)) (ya : Int)
    (meta : Meta) (pid : Option String) (st : SchedState) :
    SchedState × Res (List JHandle) :=
  match env.holidays prov with
  | none => (st, .err .unknownProvider)
  | some _ =>
    let (st1, ids) := (List.range (ya + 1).toNat).foldl
      (fun acc i =>
        let (st', ids') := holWinYearJobs env prov tFrom wend titleC cats ya cb pid
          (env.year + (i : Int)) acc.1
        (st', acc.2 ++ ids'))
      (st, [])
    let (st2, okW) := persistUpsert env pid (.holidayWindowK prov tFrom wend titleC cats ya)
      meta st1
    if okW then (st2, .ok ids) else (st2, .err .persistFail)

/-! ### Reload (source lines 166-199)

Both loaders iterate over the snapshot read from disk (`data["specs"]`),
skip records the caller-supplied resolver does not recognise, and feed the
rest back through the registration path; a raised exception aborts the
loop. -/

/-- `load_persisted` (source lines 166-174): every resolved record goes
through plain `add`, whose dispatch rejects `_kind`-tagged specs
(`ValueError("Unsupported schedule spec")` before any registration). -/
def loadPGo (env : Env) (resolver : String → Option Nat) :
    List PRec → SchedState → SchedState × Res Unit
  | [], st => (st, .ok ())
  | r :: rs, st =>
    match resolver r.id with
    | none => loadPGo env resolver rs st
    | some u =>
      match r.spec with
      | .plain s =>
        match add env s (.user u) r.meta (some r.id) st with
        | (st', .ok _) => loadPGo env resolver rs st'
        | (st', .err e) => (st', .err e)
      | _ => (st, .err .unsupportedSpec)

def loadPersisted (env : Env) (resolver : String → Option Nat)
    (st : SchedState) : SchedState × Res Unit :=
  loadPGo env resolver st.store st

/-- `load_persisted_with_kinds` (source lines 176-199): dispatch on the
record's `_kind` discriminant; a `holiday_window` record has no branch and
falls into the `add` fallback, which rejects it. -/
def loadWKGo (env : Env) (resolver : String → Option Nat) :
    List PRec → SchedState → SchedState × Res Unit
  | [], st => (st, .ok ())
  | r :: rs, st =>
    match resolver r.id with
    | none => loadWKGo env resolver rs st
    | some u =>
      let step : SchedState × Res (List JHandle) :=
        match r.spec with
        | .plain s => add env s (.user u) r.meta (some r.id) st
        | .annualFixed m d t => addAnnualFixedDay env m d t (.user u) r.meta (some r.id) st
        | .annualDates ds t => addAnnualDates env ds t (.user u) r.meta (some r.id) st
        | .annualNthK m w nth t =>
          addAnnualNthWeekday env m (.wint w) nth t (.user u) r.meta (some r.id) st
        | .holidayAtK p t tc cats ya =>
          addHolidayAt env p t (.user u) tc cats ya r.meta (some r.id) st
        | .anyKind cs => addAny env cs (.user u) r.meta (some r.id) st
        | .holidayWindowK .. => (st, .err .unsupportedSpec)
      match step with
      | (st', .ok _) => loadWKGo env resolver rs st'
      | (st', .err e) => (st', .err e)

def loadPersistedWithKinds (env : Env) (resolver : String → Option Nat)
    (st : SchedState) : SchedState × Res Unit :=
  loadWKGo env resolver st.store st

/-! ### Firing semantics

A single due job firing: the payload event is delivered through the job's
callback (the `add_any` wrapper forwards only start-phase events, wrapping
them as `{"triggered_by": ev, "meta": meta}`), a one-shot job leaves the
store, and the job's chain registers its successors — every `_add_date_job`
call inside a fired closure in the source passes the closure's original
`persist_id` and caller callback, which `appendSpawns` makes explicit. -/

/-- A payload event as far as the claims observe it: its phase and the
logical-id tag (`meta["persist_id"]`). -/
structure Ev where
  startPhase : Bool
  pid : Option String
  deriving DecidableEq, Repr

/-- The argument a user callback receives: a plain payload event, or
`add_any`'s `{"triggered_by": ev, "meta": meta}` dict (which has no
`"phase"` key). -/
inductive CbArg where
  | pl (ev : Ev)
  | wrapped (trigBy : Ev)
  deriving DecidableEq, Repr

/-- One invocation of a caller-supplied callback. -/
structure UCall where
  u : Nat
  arg : CbArg
  deriving DecidableEq, Repr

/-- Deliver an argument through a (possibly wrapped) callback.
`on_trigger` (source lines 250-252) forwards only when
`ev.get("phase") == "start"`; a wrapped dict has no phase key, so a nested
wrapper forwards nothing. -/
def deliver : Cb → CbArg → List UCall
  | .user u, a => [⟨u, a⟩]
  | .anyWrap inner, .pl ev => if ev.startPhase then deliver inner (.wrapped ev) else []
  | .anyWrap _, .wrapped _ => []

/-- The phase of the payload a firing job delivers. -/
def phaseOf : JobKind → Bool
  | .plain ph => ph
  | _ => true

/-- The successor registrations a firing performs, as (trigger, kind)
descriptors; the caller attaches the fired job's `persist_id` and callback. -/
def spawnDescrs (env : Env) (k : JobKind) : List (Trig × JobKind) :=
  match k with
  | .plain _ => []
  | .dailyRange rf =>
    [(.atDate (computeWindow env rf env.today).2, .plain false)]
  | .weeklyTo t1 t2 =>
    [(.atDate (weeklyToEnd env.today t1 t2), .plain false)]
  | .weeklyFor t1 dur =>
    [(.atDate (combine env.today t1 + dur.secs), .plain false)]
  | .sunAtK w off => [(.atDate (sunNextAt env w off), .sunAtK w off)]
  | .sunRange rf endAt =>
    let w := nextWindow env rf
    [(.atDate endAt, .plain false), (.atDate w.1, .sunRange rf w.2)]
  | .annualNth m w nth t y =>
    match nth_weekday_of_month (y + 1) m w nth with
    | .ok d => [(.atDate (combine (daysFromCivil (y + 1) m d) t), .annualNth m w nth t (y + 1))]
    | .err _ => []
  | .holAt prov t tc cats ya y =>
    match env.holidays prov with
    | some f =>
      ((f (y + ya)).filter (hmatch tc cats)).map
        (fun ev => (.atDate (combine ev.date t), .holAt prov t tc cats ya (y + ya)))
    | none => []
  | .holWin prov t1 wend tc cats ya y endAt =>
    let next :=
      match env.holidays prov with
      | some f =>
        ((f (y + ya)).filter (hmatch tc cats)).map
          (fun ev =>
            let w := holWindowInstants ev.date t1 wend
            ((Trig.atDate w.1), JobKind.holWin prov t1 wend tc cats ya (y + ya) w.2))
      | none => []
    (Trig.atDate endAt, JobKind.plain false) :: next

/-- Register the spawned successors, each under the fired job's
`persist_id` and callback. -/
def appendSpawns (pid : Option String) (cb : Cb) :
    List (Trig × JobKind) → SchedState → SchedState
  | [], st => st
  | d :: ds, st => appendSpawns pid cb ds (mkJob st pid cb d.1 d.2).2

/-- Whether a trigger is one-shot (`DateTrigger` jobs leave the store after
firing; cron jobs stay). -/
def isOneShot : Trig → Bool
  | .atDate _ => true
  | .cron .. => false

/-- Fire the registered job with the given id (the job coming due): deliver
its payload, drop it if one-shot, register its chain successors. An unknown
id fires nothing. -/
def fireById (env : Env) (st : SchedState) (n : Nat) : List UCall × SchedState :=
  match st.jobs.find? (fun j => j.id == n) with
  | none => ([], st)
  | some j =>
    let ev : Ev := ⟨phaseOf j.kind, j.pid⟩
    let calls := deliver j.cb (.pl ev)
    let base :=
      if isOneShot j.trig then { st with jobs := st.jobs.filter (fun j' => !(j'.id == n)) }
      else st
    (calls, appendSpawns j.pid j.cb (spawnDescrs env j.kind) base)

/-- A sequence of firings at future due times. -/
def runFires (env : Env) (st : SchedState) : List Nat → List UCall × SchedState
  | [] => ([], st)
  | n :: ns =>
    let (calls, st') := fireById env st n
    let (calls', st'') := runFires env st' ns
    (calls ++ calls', st'')

/-- The logical-id tag of a delivered callback argument. -/
def argTag : CbArg → Option String
  | .pl ev => ev.pid
  | .wrapped ev => ev.pid

/-! ### Predicates used by the theorem statements -/

/-- Whether a job's logical-id tag matches `x` or a child id `x#…`. -/
def tagMatch (x : String) : Option String → Bool
  | some p => pidMatch x p
  | none => false

/-- No registered job is tagged with `x` or a child id of `x`. -/
def noTagB (x : String) (st : SchedState) : Bool :=
  st.jobs.all (fun j => !(tagMatch x j.pid))

/-- The job-id set the index holds for a logical id. -/
def idxLookup (idx : List (String × List Nat)) (p : String) : List Nat :=
  match idx.find? (fun e => e.1 == p) with
  | some e => e.2
  | none => []

/-- The standing invariant of `_persist_index`: every job registered under a
`persist_id` is indexed under it (every registration path goes through
`_index_jobs`, and `cancel` discards removed ids from the sets). -/
def invOk (st : SchedState) : Bool :=
  st.jobs.all (fun j =>
    match j.pid with
    | some p => (idxLookup st.index p).contains j.id
    | none => true)

/-- The callback-independent part of a registered job (everything but `cb`). -/
def shapeJ (j : Job) : Nat × Option String × Trig × JobKind :=
  (j.id, j.pid, j.trig, j.kind)

/-- The callback-independent shape of the job store. -/
def jobsShape (st : SchedState) : List (Nat × Option String × Trig × JobKind) :=
  st.jobs.map shapeJ

/-- The registered trigger list. -/
def trigsOf (st : SchedState) : List Trig := st.jobs.map (fun j => j.trig)

/-- Whether `add` accepts the spec without a `ValueError` (only invalid
weekly day names are rejected). -/
def specValid : Spec → Bool
  | .weekly w => (w.days.mapM dowMap).isSome
  | _ => true

/-- The spec forms whose `add` return value consists of genuine job ids
(the sun-event, sun-range forms return a descriptive string instead). -/
def genuineHandles : Spec → Bool
  | .atS (.dateTime ..) => true
  | .atS (.timeOnly _) => true
  | .atS (.sunAt ..) => false
  | .range (.once ..) => true
  | .range (.recur rf) => (cronRangeTime rf).isSome
  | .weekly _ => true

/-- Whether a fallible result succeeded. -/
def isOkR {α : Type} : Res α → Bool
  | .ok _ => true
  | .err _ => false

/-- The handle list of a successful result (empty on error). -/
def resHandles : Res (List JHandle) → List JHandle
  | .ok hs => hs
  | .err _ => []

/-- Whether a meta dict has a key. -/
def hasKeyB (m : Meta) (k : String) : Bool := (m.find? (fun e => e.1 == k)).isSome

/-- Whether a persisted spec payload is a plain, `add`-acceptable spec. -/
def isPlainValid : PSpec → Bool
  | .plain s => specValid s
  | _ => false

/-- Whether a handle occurs among the registered job ids. -/
def handleRegistered (st : SchedState) (h : JHandle) : Bool :=
  match h with
  | .real n => st.jobs.any (fun j => j.id == n)
  | .descr _ => false

/-- Records of the store matching an unresolved id set, boolean membership. -/
def recIn (l : List PRec) (r : PRec) : Bool := decide (r ∈ l)

/-! ### Concrete data for witnesses and counterexamples -/

/-- An environment with a fixed clock and simple sun times: local noon of
day 0 is instant 43200; sunrise 06:00, sunset 18:00. -/
def envW : Env where
  now := 43200
  today := 0
  year := 2025
  sunrise := fun d => d * 86400 + 6 * 3600
  sunset := fun d => d * 86400 + 18 * 3600
  holidays := fun _ => none
  persistOk := true

/-- `envW` with failing persistence writes. -/
def envWFail : Env where
  now := 43200
  today := 0
  year := 2025
  sunrise := fun d => d * 86400 + 6 * 3600
  sunset := fun d => d * 86400 + 18 * 3600
  holidays := fun _ => none
  persistOk := false

/-- An environment whose clock (June 1, 2025) is past the year's
mid-January occurrences, for the annual nth-weekday claims:
`now` is 2025-06-01 00:00. -/
def envJun : Env where
  now := 1748736000
  today := 20240
  year := 2025
  sunrise := fun d => d * 86400 + 6 * 3600
  sunset := fun d => d * 86400 + 18 * 3600
  holidays := fun _ => none
  persistOk := true

/-- A two-child composite registered under `"ev"` on the empty state. -/
def stAny : SchedState :=
  (addAny envW [.atS (.timeOnly ⟨7, 30, 0⟩), .atS (.sunAt true 0)] (.user 1) []
    (some "ev") emptyState).1

/-- A one-child composite's persisted store (child record first, composite
record last), as `add_any` writes it. -/
def storeC3 : List PRec :=
  (addAny envW [.atS (.timeOnly ⟨7, 30, 0⟩)] (.user 1) [] (some "x") emptyState).1.store

/-- A restart state holding only `storeC3`. -/
def stReload : SchedState := { jobs := [], index := [], store := storeC3, fresh := 0 }

/-- A resolver that recognises every id (returns callback 9). -/
def resolveAll : String → Option Nat := fun _ => some 9

/-- A resolver that recognises only the composite id `"x"`. -/
def resolveBase : String → Option Nat := fun s => if s == "x" then some 9 else none

/-- A store holding two plain records, under ids `"b"` and `"a"`. -/
def stC7 : SchedState :=
  (add envW (.atS (.timeOnly ⟨8, 0, 0⟩)) (.user 3) [] (some "a")
    (add envW (.atS (.timeOnly ⟨7, 0, 0⟩)) (.user 2) [] (some "b") emptyState).1).1

/-- A restart state holding only `stC7`'s records. -/
def stRestart : SchedState := { jobs := [], index := [], store := stC7.store, fresh := 0 }

/-- A resolver that recognises only `"a"`. -/
def resolveA : String → Option Nat := fun s => if s == "a" then some 7 else none

/-- The record under id `"b"`, which `resolveA` does not resolve. -/
def recB : PRec :=
  ⟨"b", .plain (.atS (.timeOnly ⟨7, 0, 0⟩)), [("persist_id", "b")]⟩

/-- A small concrete sun cache: today's entry and a 10-day-old one. -/
def cacheW : SunCache := [((0, "sunrise"), 21600), ((-10, "sunset"), 50)]

def keyW : Int × String := (1, "sunrise")

/-- The recurring range `{"from": {"time": "10:00"}, "to": {"day": -1,
"time": "09:00"}}`. -/
def rfC5 : RecurFrom := ⟨.ftime ⟨10, 0, 0⟩, .rto ⟨-1, .ttime ⟨9, 0, 0⟩, false⟩⟩

/-! ## Supporting lemmas -/

/-- Bounds of a valid wall-clock time in seconds. -/
theorem secs_bounds (t : HMS) (h : validHMS t = true) :
    0 ≤ t.secs ∧ t.secs < 86400 := by
  simp [validHMS] at h
  simp [HMS.secs]
  omega

/-! ## C5 — midnight rollover of clock-time window ends -/

/-- C5: for window-producing specifications, whenever a dateless `to` end
does not come after the start, one day is added (conjunct 1, for every
recurring range); the resulting end is strictly later than the start for
same-day clock windows: a daily/sun-relative range with clock start, clock
end and zero day shift (conjunct 2), a weekly window with an explicit end
time (conjunct 3), and a holiday window with an explicit end time
(conjunct 4).  The strictness fails for nonzero day shifts, which is why
the claim as stated is only partly right (see the counterexample). -/
theorem C5_window_end_rollover :
    (∀ (env : Env) (a : FAnchor) (ts : ToSpec) (base : Int),
      ts.hasDate = false →
      rawToEnd env ts base ≤ anchorStart env a base →
      (computeWindow env ⟨a, .rto ts⟩ base).2 = rawToEnd env ts base + 86400) ∧
    (∀ (env : Env) (t1 t2 : HMS) (base : Int),
      validHMS t1 = true → validHMS t2 = true →
      (computeWindow env ⟨.ftime t1, .rto ⟨0, .ttime t2, false⟩⟩ base).1 <
        (computeWindow env ⟨.ftime t1, .rto ⟨0, .ttime t2, false⟩⟩ base).2) ∧
    (∀ (today : Int) (t1 t2 : HMS),
      validHMS t1 = true → validHMS t2 = true →
      combine today t1 < weeklyToEnd today t1 t2) ∧
    (∀ (d : Int) (t1 t2 : HMS),
      validHMS t1 = true → validHMS t2 = true →
      (holWindowInstants d t1 (.hTo t2)).1 < (holWindowInstants d t1 (.hTo t2)).2) := by
  refine ⟨?_, ?_, ?_, ?_⟩
  · intro env a ts base hdate hle
    simp [computeWindow, hdate, hle]
  · intro env t1 t2 base h1 h2
    have b1 := secs_bounds t1 h1
    have b2 := secs_bounds t2 h2
    simp [computeWindow, anchorStart, rawToEnd, combine]
    split
    · omega
    · omega
  · intro today t1 t2 h1 h2
    have b1 := secs_bounds t1 h1
    have b2 := secs_bounds t2 h2
    simp [weeklyToEnd, combine]
    split
    · omega
    · omega
  · intro d t1 t2 h1 h2
    have b1 := secs_bounds t1 h1
    have b2 := secs_bounds t2 h2
    simp [holWindowInstants, combine]
    split
    · omega
    · omega

/-- C5 witness: the daily clock window 22:00 → 06:00 on day 0 rolls past
midnight and ends strictly after it starts. -/
theorem C5_window_end_rollover_witness :
    validHMS ⟨22, 0, 0⟩ = true ∧ validHMS ⟨6, 0, 0⟩ = true ∧
    (computeWindow envW ⟨.ftime ⟨22, 0, 0⟩, .rto ⟨0, .ttime ⟨6, 0, 0⟩, false⟩⟩ 0).1 <
      (computeWindow envW ⟨.ftime ⟨22, 0, 0⟩, .rto ⟨0, .ttime ⟨6, 0, 0⟩, false⟩⟩ 0).2 :=
  ⟨by decide, by decide,
    C5_window_end_rollover.2.1 envW ⟨22, 0, 0⟩ ⟨6, 0, 0⟩ 0 (by decide) (by decide)⟩

/-- C5 counterexample: the recurring range `from 10:00 to {day: -1} 09:00`
(a sun-relative/daily range with a clock-time end, in scope of the claim)
computes start 10:00 of day 0 and raw end 09:00 of day −1; the rollover is
applied, yet the delivered end instant 09:00 of day 0 is still not strictly
later than the start, refuting the claim as stated. -/
theorem C5_window_end_rollover_cex :
    computeWindow envW rfC5 0 = (36000, 32400) ∧
    rawToEnd envW ⟨-1, .ttime ⟨9, 0, 0⟩, false⟩ 0 + 86400 = 32400 ∧
    ¬((computeWindow envW rfC5 0).1 < (computeWindow envW rfC5 0).2) := by
  refine ⟨by decide, by decide, by decide⟩

/-! ## C9 — astronomical cache staleness sweep -/

/-- C9: on a cache miss (a lookup that writes a new entry), the sweep
leaves no entry dated more than 5 days before today (conjunct 1), while
every entry of the written cache dated within the past 5 days or later is
retained (conjunct 2); a cache hit changes nothing (conjunct 3). -/
theorem C9_cache_staleness (today : Int) (c : SunCache) (k : Int × String) (v : Int) :
    (cacheFind c k = none →
      ((get_cached today c k v).2.all (fun e => !(decide (e.1.1 < today - 5)))) = true) ∧
    (cacheFind c k = none →
      ∀ e ∈ c ++ [(k, v)], today - 5 ≤ e.1.1 → e ∈ (get_cached today c k v).2) ∧
    (∀ dt, cacheFind c k = some dt → (get_cached today c k v).2 = c) := by
  refine ⟨?_, ?_, ?_⟩
  · intro h
    simp only [get_cached, h, List.all_eq_true]
    intro e he
    have := List.of_mem_filter he
    simp at this ⊢
    omega
  · intro h e he hd
    simp only [get_cached, h]
    refine List.mem_filter.mpr ⟨he, ?_⟩
    simp
    omega
  · intro dt h
    simp [get_cached, h]

/-- C9 witness: writing the entry for day 1 into a cache holding a 10-day-old
entry evicts the stale entry and keeps the rest. -/
theorem C9_cache_staleness_witness :
    cacheFind cacheW keyW = none ∧
    ((get_cached 0 cacheW keyW 200).2.all (fun e => !(decide (e.1.1 < 0 - 5)))) = true ∧
    ((0, "sunrise"), 21600) ∈ (get_cached 0 cacheW keyW 200).2 :=
  ⟨by decide,
   (C9_cache_staleness 0 cacheW keyW 200).1 (by decide),
   (C9_cache_staleness 0 cacheW keyW 200).2.1 (by decide) ((0, "sunrise"), 21600)
     (by decide) (by decide)⟩

/-! ## C10 — `_parse_hhmmss` behaviour at the `add` interface -/

/-- C10 (amended): for a string of exactly two colon-separated integer
components within clock range, the parsed time is `(H, M, 0)` (conjunct 1);
for one or at least four integer components the function falls through and
returns `None` without raising (conjunct 2).  An out-of-range two-component
string does not produce that time — the `ValueError` handler itself raises —
which is the correction to the claim (see the counterexample). -/
theorem C10_parse_hhmmss :
    (∀ (s : String) (a b : Int),
      (splitColon s.toList).mapM pyIntL = some [a, b] →
      0 ≤ a → a ≤ 23 → 0 ≤ b → b ≤ 59 →
      parse_hhmmss s = .ok ⟨a, b, 0⟩) ∧
    (∀ (s : String) (parts : List Int),
      (splitColon s.toList).mapM pyIntL = some parts →
      parts.length = 1 ∨ 4 ≤ parts.length →
      parse_hhmmss s = .noneV) := by
  constructor
  · intro s a b hsp ha1 ha2 hb1 hb2
    have hv : validHMS ⟨a, b, 0⟩ = true := by
      simp [validHMS]
      omega
    simp only [parse_hhmmss]
    rw [hsp]
    simp [parseParts, mkTime, hv]
  · intro s parts hsp hlen
    simp only [parse_hhmmss]
    rw [hsp]
    match parts, hlen with
    | [a], _ => rfl
    | a :: b :: c :: d :: rest, h =>
      simp [parseParts]
    | [], h =>
      simp at h
    | [a, b], h =>
      simp at h
    | [a, b, c], h =>
      simp at h

/-- C10 witness: `"7:30"` parses to 07:30:00 and `"5"` (one component)
returns `None`. -/
theorem C10_parse_hhmmss_witness :
    (splitColon "7:30".toList).mapM pyIntL = some [7, 30] ∧
    parse_hhmmss "7:30" = .ok ⟨7, 30, 0⟩ ∧
    parse_hhmmss "5" = .noneV :=
  ⟨by decide,
   C10_parse_hhmmss.1 "7:30" 7 30 (by decide) (by decide) (by decide) (by decide)
     (by decide),
   C10_parse_hhmmss.2 "5" [5] (by decide) (Or.inl (by decide))⟩

/-- C10 counterexample: `"99:00"` has exactly two colon-separated integer
components, but the parse does not return a time with hour 99 — the caught
`ValueError` leads to `time.now()`, which raises an `AttributeError`. -/
theorem C10_parse_hhmmss_cex :
    parse_hhmmss "99:00" = PyTimeRes.raisedAttr ∧
    parse_hhmmss "99:00" ≠ PyTimeRes.ok ⟨99, 0, 0⟩ := by
  refine ⟨by decide, by decide⟩

/-! ## Structure of the registration paths

Every scheduling path appends jobs carrying the `persist_id` and callback it
was handed, and a successful dispatch appends at least one job. -/

theorem mkJob_jobs (st : SchedState) (pid : Option String) (cb : Cb)
    (trig : Trig) (k : JobKind) :
    (mkJob st pid cb trig k).2.jobs = st.jobs ++ [⟨st.fresh, pid, cb, trig, k⟩] := rfl

theorem persistUpsert_jobs (env : Env) (pid : Option String) (ps : PSpec)
    (m : Meta) (st : SchedState) : (persistUpsert env pid ps m st).1.jobs = st.jobs := by
  cases pid with
  | none => rfl
  | some p =>
    simp only [persistUpsert]
    split
    · rfl
    · rfl

theorem persistUpsert_fresh (env : Env) (pid : Option String) (ps : PSpec)
    (m : Meta) (st : SchedState) : (persistUpsert env pid ps m st).1.fresh = st.fresh := by
  cases pid with
  | none => rfl
  | some p =>
    simp only [persistUpsert]
    split
    · rfl
    · rfl

/-- Each successful dispatch appends a nonempty tail of jobs, all carrying
the given `persist_id` and callback. -/
theorem addSched_jobs (env : Env) (spec : Spec) (cb : Cb) (pid : Option String)
    (st : SchedState) :
    ∃ tl, (addSched env spec cb pid st).1.jobs = st.jobs ++ tl ∧
      (∀ j ∈ tl, j.pid = pid ∧ j.cb = cb) ∧
      ((∃ hs, (addSched env spec cb pid st).2 = .ok hs) → tl ≠ []) := by
  cases spec with
  | atS a =>
    cases a with
    | dateTime d t =>
      refine ⟨[⟨st.fresh, pid, cb, _, _⟩], rfl, ?_, ?_⟩
      · intro j hj
        simp at hj
        simp [hj]
      · intro _
        simp
    | timeOnly t =>
      refine ⟨[⟨st.fresh, pid, cb, _, _⟩], rfl, ?_, ?_⟩
      · intro j hj
        simp at hj
        simp [hj]
      · intro _
        simp
    | sunAt w off =>
      refine ⟨[⟨st.fresh, pid, cb, _, _⟩], rfl, ?_, ?_⟩
      · intro j hj
        simp at hj
        simp [hj]
      · intro _
        simp
  | range f =>
    cases f with
    | once d t e =>
      cases e with
      | oFor dur =>
        refine ⟨[⟨st.fresh, pid, cb, .atDate (combine d.days t), .plain true⟩,
          ⟨st.fresh + 1, pid, cb, .atDate (combine d.days t + dur.secs), .plain false⟩],
          ?_, ?_, ?_⟩
        · simp [addSched, scheduleRange, mkJob]
        · intro j hj
          simp at hj
          rcases hj with hj | hj
          · simp [hj]
          · simp [hj]
        · intro _
          simp
      | oTo d2 t2 =>
        refine ⟨[⟨st.fresh, pid, cb, .atDate (combine d.days t), .plain true⟩,
          ⟨st.fresh + 1, pid, cb, .atDate (combine d2.days t2), .plain false⟩],
          ?_, ?_, ?_⟩
        · simp [addSched, scheduleRange, mkJob]
        · intro j hj
          simp at hj
          rcases hj with hj | hj
          · simp [hj]
          · simp [hj]
        · intro _
          simp
    | recur rf =>
      cases h : cronRangeTime rf with
      | some t =>
        refine ⟨[⟨st.fresh, pid, cb, .cron none none none t.hour t.minute t.second,
          .dailyRange rf⟩], ?_, ?_, ?_⟩
        · simp [addSched, scheduleRange, h, mkJob]
        · intro j hj
          simp at hj
          simp [hj]
        · intro _
          simp
      | none =>
        refine ⟨[⟨st.fresh, pid, cb, .atDate (nextWindow env rf).1,
          .sunRange rf (nextWindow env rf).2⟩], ?_, ?_, ?_⟩
        · simp [addSched, scheduleRange, h, mkJob]
        · intro j hj
          simp at hj
          simp [hj]
        · intro _
          simp
  | weekly w =>
    cases h : w.days.mapM dowMap with
    | none =>
      refine ⟨[], ?_, by simp, ?_⟩
      · simp only [addSched, scheduleWeekly]
        rw [h]
        simp
      · rintro ⟨hs, hok⟩
        simp only [addSched, scheduleWeekly] at hok
        rw [h] at hok
        simp at hok
    | some ds =>
      cases he : w.wend with
      | wTo t2 =>
        refine ⟨[⟨st.fresh, pid, cb,
          .cron (some ds) none none w.time.hour w.time.minute w.time.second,
          .weeklyTo w.time t2⟩], ?_, ?_, ?_⟩
        · simp only [addSched, scheduleWeekly]
          rw [h, he]
          simp [mkJob]
        · intro j hj
          simp at hj
          simp [hj]
        · intro _
          simp
      | wFor dur =>
        refine ⟨[⟨st.fresh, pid, cb,
          .cron (some ds) none none w.time.hour w.time.minute w.time.second,
          .weeklyFor w.time dur⟩], ?_, ?_, ?_⟩
        · simp only [addSched, scheduleWeekly]
          rw [h, he]
          simp [mkJob]
        · intro j hj
          simp at hj
          simp [hj]
        · intro _
          simp

/-- `add` leaves the dispatch's job store untouched (the upsert only writes
the persistence file). -/
theorem add_jobs (env : Env) (spec : Spec) (cb : Cb) (meta : Meta)
    (pid : Option String) (st : SchedState) :
    (add env spec cb meta pid st).1.jobs = (addSched env spec cb pid st).1.jobs := by
  simp only [add]
  rcases h : addSched env spec cb pid st with ⟨st1, r⟩
  cases r with
  | err e => simp
  | ok hs =>
    simp only
    split
    · rw [persistUpsert_jobs]
    · rw [persistUpsert_jobs]

/-- The dispatch ignores `persistOk`. -/
theorem addSched_persistOk (env : Env) (b : Bool) (spec : Spec) (cb : Cb)
    (pid : Option String) (st : SchedState) :
    addSched { env with persistOk := b } spec cb pid st = addSched env spec cb pid st := by
  cases spec with
  | atS a => cases a <;> rfl
  | range f => cases f <;> rfl
  | weekly w => rfl

/-! ## Cancellation lemmas -/

theorem cancelOne_jobs_sub (st : SchedState) (h : JHandle) (j : Job)
    (hj : j ∈ (cancelOne st h).jobs) : j ∈ st.jobs := by
  cases h with
  | descr s => exact hj
  | real n =>
    simp only [cancelOne] at hj
    split at hj
    · exact (List.mem_filter.mp hj).1
    · exact hj

theorem handleRegistered_cancelOne_self (st : SchedState) (n : Nat) :
    handleRegistered (cancelOne st (.real n)) (.real n) = false := by
  simp only [cancelOne]
  split
  · simp only [handleRegistered]
    rw [List.any_eq_false]
    intro j hj
    have h2 := (List.mem_filter.mp hj).2
    simpa using h2
  · rename_i hg
    simpa [handleRegistered] using hg

theorem handleRegistered_cancelOne_mono (st : SchedState) (h' : JHandle)
    (h : JHandle) (hne : handleRegistered st h = false) :
    handleRegistered (cancelOne st h') h = false := by
  cases h with
  | descr s => rfl
  | real n =>
    simp only [handleRegistered] at hne ⊢
    rw [List.any_eq_false] at hne ⊢
    intro j hj
    exact hne j (cancelOne_jobs_sub st h' j hj)

theorem handleRegistered_cancel_mono (hs : List JHandle) (st : SchedState)
    (h : JHandle) (hne : handleRegistered st h = false) :
    handleRegistered (cancel hs st) h = false := by
  induction hs generalizing st with
  | nil => exact hne
  | cons h' rest ih =>
    exact ih (cancelOne st h') (handleRegistered_cancelOne_mono st h' h hne)

/-- After `cancel hs`, none of the handles in `hs` is registered. -/
theorem cancel_unregisters (hs : List JHandle) (st : SchedState) (h : JHandle)
    (hmem : h ∈ hs) : handleRegistered (cancel hs st) h = false := by
  induction hs generalizing st with
  | nil => cases hmem
  | cons h' rest ih =>
    rcases List.mem_cons.mp hmem with rfl | hmem'
    · cases h with
      | descr s => rfl
      | real n =>
        exact handleRegistered_cancel_mono rest (cancelOne st (.real n)) (.real n)
          (handleRegistered_cancelOne_self st n)
    · exact ih (cancelOne st h') hmem'

/-! ## Dispatch of the genuine-handle forms returns the new jobs' ids -/

theorem addSched_genuine (env : Env) (spec : Spec) (cb : Cb) (pid : Option String)
    (st : SchedState) (hg : genuineHandles spec = true)
    (hv : specValid spec = true) :
    ∃ tl, (addSched env spec cb pid st).1.jobs = st.jobs ++ tl ∧
      (addSched env spec cb pid st).2 = .ok (tl.map (fun j => .real j.id)) := by
  cases spec with
  | atS a =>
    cases a with
    | dateTime d t => exact ⟨[⟨st.fresh, pid, cb, _, _⟩], rfl, rfl⟩
    | timeOnly t => exact ⟨[⟨st.fresh, pid, cb, _, _⟩], rfl, rfl⟩
    | sunAt w off => simp [genuineHandles] at hg
  | range f =>
    cases f with
    | once d t e =>
      cases e with
      | oFor dur =>
        refine ⟨[⟨st.fresh, pid, cb, .atDate (combine d.days t), .plain true⟩,
          ⟨st.fresh + 1, pid, cb, .atDate (combine d.days t + dur.secs), .plain false⟩],
          ?_, ?_⟩
        · simp [addSched, scheduleRange, mkJob]
        · simp [addSched, scheduleRange, mkJob]
      | oTo d2 t2 =>
        refine ⟨[⟨st.fresh, pid, cb, .atDate (combine d.days t), .plain true⟩,
          ⟨st.fresh + 1, pid, cb, .atDate (combine d2.days t2), .plain false⟩],
          ?_, ?_⟩
        · simp [addSched, scheduleRange, mkJob]
        · simp [addSched, scheduleRange, mkJob]
    | recur rf =>
      cases h : cronRangeTime rf with
      | some t =>
        refine ⟨[⟨st.fresh, pid, cb, .cron none none none t.hour t.minute t.second,
          .dailyRange rf⟩], ?_, ?_⟩
        · simp [addSched, scheduleRange, h, mkJob]
        · simp [addSched, scheduleRange, h, mkJob]
      | none => simp [genuineHandles, h] at hg
  | weekly w =>
    cases h : w.days.mapM dowMap with
    | none =>
      simp only [specValid] at hv
      rw [h] at hv
      simp at hv
    | some ds =>
      cases he : w.wend with
      | wTo t2 =>
        refine ⟨[⟨st.fresh, pid, cb,
          .cron (some ds) none none w.time.hour w.time.minute w.time.second,
          .weeklyTo w.time t2⟩], ?_, ?_⟩
        · simp only [addSched, scheduleWeekly]
          rw [h, he]
          simp [mkJob]
        · simp only [addSched, scheduleWeekly]
          rw [h, he]
          simp [mkJob]
      | wFor dur =>
        refine ⟨[⟨st.fresh, pid, cb,
          .cron (some ds) none none w.time.hour w.time.minute w.time.second,
          .weeklyFor w.time dur⟩], ?_, ?_⟩
        · simp only [addSched, scheduleWeekly]
          rw [h, he]
          simp [mkJob]
        · simp only [addSched, scheduleWeekly]
          rw [h, he]
          simp [mkJob]

theorem persistUpsert_snd (env : Env) (pid : Option String) (ps : PSpec)
    (m : Meta) (st : SchedState) (henv : env.persistOk = true) :
    (persistUpsert env pid ps m st).2 = true := by
  cases pid with
  | none => rfl
  | some p => simp [persistUpsert, henv]

/-- With a healthy persistence layer, `add` returns the dispatch's handles
and its job store. -/
theorem add_ok_eq (env : Env) (spec : Spec) (cb : Cb) (meta : Meta)
    (pid : Option String) (st stS : SchedState) (hsS : List JHandle)
    (henv : env.persistOk = true)
    (hd : addSched env spec cb pid st = (stS, .ok hsS)) :
    (add env spec cb meta pid st).2 = .ok hsS ∧
    (add env spec cb meta pid st).1.jobs = stS.jobs := by
  cases pid with
  | none =>
    have hu := persistUpsert_snd env none (.plain spec) meta stS henv
    constructor
    · simp only [add, hd]
      rw [if_pos hu]
    · simp only [add, hd]
      rw [if_pos hu, persistUpsert_jobs]
  | some p =>
    have hu := persistUpsert_snd env (some p) (.plain spec)
      (setdefault meta "persist_id" p) stS henv
    constructor
    · simp only [add, hd]
      rw [if_pos hu]
    · simp only [add, hd]
      rw [if_pos hu, persistUpsert_jobs]

/-- A successful `schedule_year` registers exactly one dated chain job. -/
theorem scheduleNthYear_ok (env : Env) (month w nth : Int) (t : HMS) (cb : Cb)
    (pid : Option String) (year : Int) (st st1 : SchedState) (dt : Int)
    (h : scheduleNthYear env month w nth t cb pid year st = (st1, .ok dt)) :
    st1.jobs = st.jobs ++ [⟨st.fresh, pid, cb, .atDate dt, .annualNth month w nth t year⟩] := by
  simp only [scheduleNthYear] at h
  cases hn : nth_weekday_of_month year month w nth with
  | err e =>
    rw [hn] at h
    simp at h
  | ok d =>
    rw [hn] at h
    simp only [mkJob] at h
    obtain ⟨h1, h2⟩ := Prod.mk.injEq .. ▸ h
    obtain rfl : combine (daysFromCivil year month d) t = dt := by
      cases h2
      rfl
    rw [← h1]

/-! ## C4 — returned handles vs registered triggers -/

/-- C4 (amended): with a healthy persistence layer, (part 1) for every valid
spec of a purely clock/calendar form — fixed date+time, daily time, explicit
date range, daily clock range, weekly window — `add` succeeds, every returned
handle is the id of a registered trigger, and cancelling the returned handles
unregisters every one of them; (part 2) for the self-rearming sun forms
(sun-event `at`, sun-involved range) `add` registers one trigger but returns a
descriptive string that is not a registered handle, and cancelling the
returned value is a no-op that leaves the trigger registered; (part 3) the
annual nth-weekday registration likewise returns only a descriptive string:
none of its returned handles is registered, cancelling them changes nothing,
and its registered trigger(s) remain. -/
theorem C4_add_handles_vs_registered :
    (∀ (env : Env) (spec : Spec) (cb : Cb) (meta : Meta) (pid : Option String)
        (st : SchedState),
      genuineHandles spec = true → specValid spec = true → env.persistOk = true →
      isOkR (add env spec cb meta pid st).2 = true ∧
      ((resHandles (add env spec cb meta pid st).2).all
        (handleRegistered (add env spec cb meta pid st).1)) = true ∧
      ((resHandles (add env spec cb meta pid st).2).all
        (fun h => !(handleRegistered
          (cancel (resHandles (add env spec cb meta pid st).2)
            (add env spec cb meta pid st).1) h))) = true) ∧
    (∀ (env : Env) (spec : Spec) (cb : Cb) (meta : Meta) (pid : Option String)
        (st : SchedState),
      genuineHandles spec = false → env.persistOk = true →
      isOkR (add env spec cb meta pid st).2 = true ∧
      ((resHandles (add env spec cb meta pid st).2).all
        (fun h => !(handleRegistered (add env spec cb meta pid st).1 h))) = true ∧
      cancel (resHandles (add env spec cb meta pid st).2)
        (add env spec cb meta pid st).1 = (add env spec cb meta pid st).1 ∧
      (add env spec cb meta pid st).1.jobs.length = st.jobs.length + 1) ∧
    (∀ (env : Env) (month : Int) (wk : WkArg) (nth : Int) (t : HMS) (cb : Cb)
        (meta : Meta) (pid : Option String) (st st' : SchedState)
        (hs : List JHandle),
      addAnnualNthWeekday env month wk nth t cb meta pid st = (st', .ok hs) →
      (hs.all (fun h => !(handleRegistered st' h))) = true ∧
      cancel hs st' = st' ∧
      st.jobs.length < st'.jobs.length) := by
  refine ⟨?_, ?_, ?_⟩
  · intro env spec cb meta pid st hg hv henv
    obtain ⟨tl, htl, hres⟩ := addSched_genuine env spec cb pid st hg hv
    have hd : addSched env spec cb pid st =
        ((addSched env spec cb pid st).1, .ok (tl.map (fun j => .real j.id))) := by
      rw [← hres]
    obtain ⟨hok2, hjobs⟩ := add_ok_eq env spec cb meta pid st _ _ henv hd
    refine ⟨?_, ?_, ?_⟩
    · rw [hok2]
      rfl
    · rw [hok2]
      simp only [resHandles, List.all_eq_true]
      intro h hmem
      obtain ⟨j, hj, rfl⟩ := List.mem_map.mp hmem
      simp only [handleRegistered]
      rw [List.any_eq_true]
      refine ⟨j, ?_, by simp⟩
      rw [hjobs, htl]
      exact List.mem_append_right _ hj
    · rw [hok2]
      simp only [resHandles, List.all_eq_true]
      intro h hmem
      rw [cancel_unregisters _ _ h hmem]
      rfl
  · intro env spec cb meta pid st hg henv
    cases spec with
    | atS a =>
      cases a with
      | dateTime d t => simp [genuineHandles] at hg
      | timeOnly t => simp [genuineHandles] at hg
      | sunAt w off =>
        have hd : addSched env (.atS (.sunAt w off)) cb pid st =
            ((mkJob st pid cb (.atDate (sunNextAt env w off)) (.sunAtK w off)).2,
              .ok [.descr ("sun-at:" ++ toString (sunNextAt env w off))]) := rfl
        obtain ⟨hok2, hjobs⟩ := add_ok_eq env _ cb meta pid st _ _ henv hd
        refine ⟨?_, ?_, ?_, ?_⟩
        · rw [hok2]
          rfl
        · rw [hok2]
          rfl
        · rw [hok2]
          rfl
        · rw [hjobs, mkJob_jobs]
          simp
    | range f =>
      cases f with
      | once d t e => simp [genuineHandles] at hg
      | recur rf =>
        cases h : cronRangeTime rf with
        | some t =>
          rw [genuineHandles, h] at hg
          simp at hg
        | none =>
          have hd : addSched env (.range (.recur rf)) cb pid st =
              ((mkJob st pid cb (.atDate (nextWindow env rf).1)
                (.sunRange rf (nextWindow env rf).2)).2,
                .ok [.descr ("sun-range:" ++ toString (nextWindow env rf).1)]) := by
            simp [addSched, scheduleRange, h]
          obtain ⟨hok2, hjobs⟩ := add_ok_eq env _ cb meta pid st _ _ henv hd
          refine ⟨?_, ?_, ?_, ?_⟩
          · rw [hok2]
            rfl
          · rw [hok2]
            rfl
          · rw [hok2]
            rfl
          · rw [hjobs, mkJob_jobs]
            simp
    | weekly w => simp [genuineHandles] at hg
  · intro env month wk nth t cb meta pid st st' hs haa
    simp only [addAnnualNthWeekday] at haa
    split at haa
    · simp at haa
    · rename_i w hw
      split at haa
      · simp at haa
      · rename_i st1 firstDt h1
        split at haa
        · simp at haa
        · rename_i st2 dt2 h2
          split at haa
          · obtain ⟨hst, hhs⟩ := Prod.mk.injEq .. ▸ haa
            obtain rfl : [JHandle.descr ("annual-nth-weekday:" ++ toString month ++ ":"
                ++ toString w ++ ":" ++ toString nth)] = hs := by
              cases hhs
              rfl
            refine ⟨rfl, rfl, ?_⟩
            have hj1 := scheduleNthYear_ok env month w nth t cb pid env.year st st1
              firstDt h1
            by_cases hcmp : firstDt ≤ env.now
            · rw [if_pos hcmp] at h2
              have hj2 := scheduleNthYear_ok env month w nth t cb pid (env.year + 1) st1 st2
                dt2 h2
              rw [← hst, persistUpsert_jobs, hj2, hj1]
              simp
            · rw [if_neg hcmp] at h2
              obtain ⟨h2a, -⟩ := Prod.mk.injEq .. ▸ h2
              rw [← hst, persistUpsert_jobs, ← h2a, hj1]
              simp
          · simp at haa

/-- C4 witness: the daily-07:30 spec has genuine handles — its returned id
is registered and cancelling it unregisters the trigger. -/
theorem C4_add_handles_vs_registered_witness :
    genuineHandles (.atS (.timeOnly ⟨7, 30, 0⟩)) = true ∧
    specValid (.atS (.timeOnly ⟨7, 30, 0⟩)) = true ∧
    envW.persistOk = true ∧
    (isOkR (add envW (.atS (.timeOnly ⟨7, 30, 0⟩)) (.user 1) [] (some "wake")
        emptyState).2 = true ∧
      ((resHandles (add envW (.atS (.timeOnly ⟨7, 30, 0⟩)) (.user 1) [] (some "wake")
          emptyState).2).all
        (handleRegistered (add envW (.atS (.timeOnly ⟨7, 30, 0⟩)) (.user 1) []
          (some "wake") emptyState).1)) = true ∧
      ((resHandles (add envW (.atS (.timeOnly ⟨7, 30, 0⟩)) (.user 1) [] (some "wake")
          emptyState).2).all
        (fun h => !(handleRegistered
          (cancel (resHandles (add envW (.atS (.timeOnly ⟨7, 30, 0⟩)) (.user 1) []
              (some "wake") emptyState).2)
            (add envW (.atS (.timeOnly ⟨7, 30, 0⟩)) (.user 1) [] (some "wake")
              emptyState).1) h))) = true) :=
  ⟨rfl, rfl, rfl,
    C4_add_handles_vs_registered.1 envW (.atS (.timeOnly ⟨7, 30, 0⟩)) (.user 1) []
      (some "wake") emptyState rfl rfl rfl⟩

/-- C4 counterexample: a sun-event spec returns `["sun-at:108000"]` — not a
registered handle — and cancelling it leaves the registered trigger in
place, refuting the claim for the self-rearming forms. -/
theorem C4_add_handles_vs_registered_cex :
    (add envW (.atS (.sunAt true 0)) (.user 1) [] (some "s") emptyState).2 =
      .ok [.descr "sun-at:108000"] ∧
    (add envW (.atS (.sunAt true 0)) (.user 1) [] (some "s") emptyState).1.jobs.length = 1 ∧
    handleRegistered (add envW (.atS (.sunAt true 0)) (.user 1) [] (some "s")
      emptyState).1 (.descr "sun-at:108000") = false ∧
    (cancel [.descr "sun-at:108000"]
      (add envW (.atS (.sunAt true 0)) (.user 1) [] (some "s") emptyState).1).jobs.length
      = 1 := by
  refine ⟨by decide, by decide, by decide, by decide⟩

/-- The successful `schedule_year` as an equation. -/
theorem scheduleNthYear_eq (env : Env) (month w nth : Int) (t : HMS) (cb : Cb)
    (pid : Option String) (year : Int) (st : SchedState) (d : Int)
    (hn : nth_weekday_of_month year month w nth = .ok d) :
    scheduleNthYear env month w nth t cb pid year st =
      ((mkJob st pid cb (.atDate (combine (daysFromCivil year month d) t))
        (.annualNth month w nth t year)).2,
        .ok (combine (daysFromCivil year month d) t)) := by
  simp only [scheduleNthYear]
  rw [hn]

/-! ## C6 — annual nth-weekday registration when the occurrence has passed -/

/-- C6 (amended): when the current year's occurrence (at the given time) is
not ahead of `now`, `add_annual_nth_weekday` registers the current year's
already-passed occurrence AND next year's — so the next year's occurrence is
computed as the claim says, but the earliest registered one-shot instant is
the passed one, not a strictly-future one (conjuncts 2 and 3); firing an
annual-nth-weekday chain job re-registers exactly the following year's
occurrence (conjunct 4). -/
theorem C6_annual_nth_weekday_passed (env : Env) (month : Int) (wk : WkArg)
    (nth : Int) (t : HMS) (cb : Cb) (meta : Meta) (pid : Option String)
    (st : SchedState) (w d1 d2 : Int)
    (hw : weekdayToInt wk = .ok w)
    (h1 : nth_weekday_of_month env.year month w nth = .ok d1)
    (h2 : nth_weekday_of_month (env.year + 1) month w nth = .ok d2)
    (hpast : combine (daysFromCivil env.year month d1) t ≤ env.now)
    (henv : env.persistOk = true) :
    (addAnnualNthWeekday env month wk nth t cb meta pid st).2 =
      .ok [.descr ("annual-nth-weekday:" ++ toString month ++ ":" ++ toString w
        ++ ":" ++ toString nth)] ∧
    (addAnnualNthWeekday env month wk nth t cb meta pid st).1.jobs =
      st.jobs ++
        [⟨st.fresh, pid, cb, .atDate (combine (daysFromCivil env.year month d1) t),
          .annualNth month w nth t env.year⟩,
         ⟨st.fresh + 1, pid, cb, .atDate (combine (daysFromCivil (env.year + 1) month d2) t),
          .annualNth month w nth t (env.year + 1)⟩] ∧
    combine (daysFromCivil env.year month d1) t ≤ env.now ∧
    (∀ (s : SchedState) (n : Nat) (j : Job),
      s.jobs.find? (fun x => x.id == n) = some j →
      j.kind = .annualNth month w nth t env.year →
      j.trig = .atDate (combine (daysFromCivil env.year month d1) t) →
      (fireById env s n).1 = deliver j.cb (.pl ⟨true, j.pid⟩) ∧
      (fireById env s n).2.jobs =
        s.jobs.filter (fun x => !(x.id == n)) ++
          [⟨s.fresh, j.pid, j.cb,
            .atDate (combine (daysFromCivil (env.year + 1) month d2) t),
            .annualNth month w nth t (env.year + 1)⟩]) := by
  have e1 := scheduleNthYear_eq env month w nth t cb pid env.year st d1 h1
  have e2 := scheduleNthYear_eq env month w nth t cb pid (env.year + 1)
    (mkJob st pid cb (.atDate (combine (daysFromCivil env.year month d1) t))
      (.annualNth month w nth t env.year)).2 d2 h2
  have hup := persistUpsert_snd env pid (.annualNthK month w nth t) meta
    (mkJob (mkJob st pid cb (.atDate (combine (daysFromCivil env.year month d1) t))
      (.annualNth month w nth t env.year)).2 pid cb
      (.atDate (combine (daysFromCivil (env.year + 1) month d2) t))
      (.annualNth month w nth t (env.year + 1))).2 henv
  have hmain : addAnnualNthWeekday env month wk nth t cb meta pid st =
      ((persistUpsert env pid (.annualNthK month w nth t) meta
        (mkJob (mkJob st pid cb (.atDate (combine (daysFromCivil env.year month d1) t))
          (.annualNth month w nth t env.year)).2 pid cb
          (.atDate (combine (daysFromCivil (env.year + 1) month d2) t))
          (.annualNth month w nth t (env.year + 1))).2).1,
        .ok [.descr ("annual-nth-weekday:" ++ toString month ++ ":" ++ toString w
          ++ ":" ++ toString nth)]) := by
    simp only [addAnnualNthWeekday]
    rw [hw]
    simp only
    rw [e1]
    simp only
    rw [if_pos hpast, e2]
    simp only
    rw [if_pos hup]
  refine ⟨?_, ?_, hpast, ?_⟩
  · rw [hmain]
  · rw [hmain]
    simp only [persistUpsert_jobs, mkJob_jobs]
    simp [mkJob]
  · intro s n j hfind hkind htrig
    simp only [fireById, hfind]
    constructor
    · simp [hkind, phaseOf]
    · simp only [spawnDescrs, hkind]
      rw [h2]
      simp only [appendSpawns, mkJob_jobs, htrig, isOneShot]
      simp

/-- C6 witness: the 3rd Monday of January at 09:00, registered on
2025-06-01 — 2025-01-20 09:00 has passed, so both the passed 2025 occurrence
and the 2026 occurrence (2026-01-19 09:00) are registered. -/
theorem C6_annual_nth_weekday_passed_witness :
    nth_weekday_of_month envJun.year 1 0 3 = .ok 20 ∧
    combine (daysFromCivil envJun.year 1 20) ⟨9, 0, 0⟩ ≤ envJun.now ∧
    (addAnnualNthWeekday envJun 1 (.wint 0) 3 ⟨9, 0, 0⟩ (.user 2) [] (some "mlk")
      emptyState).1.jobs =
      [⟨0, some "mlk", .user 2, .atDate 1737363600, .annualNth 1 0 3 ⟨9, 0, 0⟩ 2025⟩,
       ⟨1, some "mlk", .user 2, .atDate 1768813200, .annualNth 1 0 3 ⟨9, 0, 0⟩ 2026⟩] :=
  ⟨by decide, by decide, by
    have h := C6_annual_nth_weekday_passed envJun 1 (.wint 0) 3 ⟨9, 0, 0⟩ (.user 2) []
      (some "mlk") emptyState 0 20 19 (by decide) (by decide) (by decide) (by decide) rfl
    rw [h.2.1]
    decide⟩

/-- C6 counterexample: in the same scenario the earliest registered one-shot
trigger instant (2025-01-20 09:00) is not strictly in the future — a
trigger dated before `now` is registered alongside next year's. -/
theorem C6_annual_nth_weekday_passed_cex :
    (addAnnualNthWeekday envJun 1 (.wint 0) 3 ⟨9, 0, 0⟩ (.user 2) [] (some "mlk")
      emptyState).1.jobs.map (fun j => j.trig) =
      [.atDate 1737363600, .atDate 1768813200] ∧
    (1737363600 : Int) ≤ envJun.now := by
  refine ⟨by decide, by decide⟩

/-! ## Membership lemmas for `add` and the `add_any` loop -/

theorem add_mem_new (env : Env) (spec : Spec) (cb : Cb) (meta : Meta)
    (pid : Option String) (st : SchedState) (j : Job)
    (hj : j ∈ (add env spec cb meta pid st).1.jobs) :
    j ∈ st.jobs ∨ (j.pid = pid ∧ j.cb = cb) := by
  rw [add_jobs] at hj
  obtain ⟨tl, htl, hall, -⟩ := addSched_jobs env spec cb pid st
  rw [htl] at hj
  rcases List.mem_append.mp hj with h | h
  · exact Or.inl h
  · exact Or.inr (hall j h)

theorem add_mem_mono (env : Env) (spec : Spec) (cb : Cb) (meta : Meta)
    (pid : Option String) (st : SchedState) (j : Job) (hj : j ∈ st.jobs) :
    j ∈ (add env spec cb meta pid st).1.jobs := by
  rw [add_jobs]
  obtain ⟨tl, htl, -, -⟩ := addSched_jobs env spec cb pid st
  rw [htl]
  exact List.mem_append_left _ hj

theorem add_ok_of (env : Env) (spec : Spec) (cb : Cb) (meta : Meta)
    (pid : Option String) (st : SchedState) (hs : List JHandle)
    (h : (add env spec cb meta pid st).2 = .ok hs) :
    ∃ hs', (addSched env spec cb pid st).2 = .ok hs' := by
  rcases hd : addSched env spec cb pid st with ⟨stS, r⟩
  cases r with
  | err e =>
    simp only [add, hd] at h
    simp at h
  | ok hs' => exact ⟨hs', by simp [hd]⟩

theorem add_exists_new (env : Env) (spec : Spec) (cb : Cb) (meta : Meta)
    (pid : Option String) (st : SchedState) (hs : List JHandle)
    (h : (add env spec cb meta pid st).2 = .ok hs) :
    ∃ j ∈ (add env spec cb meta pid st).1.jobs, j.pid = pid ∧ j.cb = cb := by
  obtain ⟨hs', hok⟩ := add_ok_of env spec cb meta pid st hs h
  obtain ⟨tl, htl, hall, hne⟩ := addSched_jobs env spec cb pid st
  have hnonempty := hne ⟨hs', hok⟩
  rcases tl with _ | ⟨j, tl'⟩
  · exact absurd rfl hnonempty
  · refine ⟨j, ?_, hall j (by simp)⟩
    rw [add_jobs, htl]
    exact List.mem_append_right _ (by simp)

/-- Every job of the `add_any` loop result is either pre-existing or carries
the wrapper callback under a derived child id within range. -/
theorem addAnyGo_mem (env : Env) (cbW : Cb) (meta : Meta) (x : String)
    (cs : List Spec) (i : Nat) (st : SchedState) (acc : List JHandle) (j : Job)
    (hj : j ∈ (addAnyGo env cbW meta (some x) i cs st acc).1.jobs) :
    j ∈ st.jobs ∨
      (j.cb = cbW ∧ ∃ k, i ≤ k ∧ k < i + cs.length ∧ j.pid = some (childId x k)) := by
  induction cs generalizing i st acc with
  | nil => exact Or.inl hj
  | cons c rest ih =>
    simp only [addAnyGo, Option.map_some'] at hj
    rcases ha : add env c cbW meta (some (childId x i)) st with ⟨st', r⟩
    rw [ha] at hj
    cases r with
    | ok ids =>
      simp only at hj
      rcases ih (i + 1) st' (acc ++ ids) hj with h | ⟨hcb, k, hk1, hk2, hpid⟩
      · have := add_mem_new env c cbW meta (some (childId x i)) st j (by rw [ha]; exact h)
        rcases this with h' | ⟨hpid, hcb⟩
        · exact Or.inl h'
        · exact Or.inr ⟨hcb, i, le_refl i, by simp, hpid⟩
      · exact Or.inr ⟨hcb, k, by omega, by simp; omega, hpid⟩
    | err e =>
      simp only at hj
      have := add_mem_new env c cbW meta (some (childId x i)) st j (by rw [ha]; exact hj)
      rcases this with h' | ⟨hpid, hcb⟩
      · exact Or.inl h'
      · exact Or.inr ⟨hcb, i, le_refl i, by simp, hpid⟩

theorem addAnyGo_mono (env : Env) (cbW : Cb) (meta : Meta) (x : String)
    (cs : List Spec) (i : Nat) (st : SchedState) (acc : List JHandle) (j : Job)
    (hj : j ∈ st.jobs) :
    j ∈ (addAnyGo env cbW meta (some x) i cs st acc).1.jobs := by
  induction cs generalizing i st acc with
  | nil => exact hj
  | cons c rest ih =>
    simp only [addAnyGo, Option.map_some']
    rcases ha : add env c cbW meta (some (childId x i)) st with ⟨st', r⟩
    have hj' : j ∈ st'.jobs := by
      have := add_mem_mono env c cbW meta (some (childId x i)) st j hj
      rw [ha] at this
      exact this
    cases r with
    | ok ids => exact ih (i + 1) st' (acc ++ ids) hj'
    | err e => exact hj'

/-- When the `add_any` loop succeeds, each position `k` contributed a job
registered under `x#k` with the wrapper callback. -/
theorem addAnyGo_exists (env : Env) (cbW : Cb) (meta : Meta) (x : String)
    (cs : List Spec) (i : Nat) (st : SchedState) (acc : List JHandle)
    (ids : List JHandle)
    (hok : (addAnyGo env cbW meta (some x) i cs st acc).2 = .ok ids)
    (k : Nat) (hk1 : i ≤ k) (hk2 : k < i + cs.length) :
    ∃ j ∈ (addAnyGo env cbW meta (some x) i cs st acc).1.jobs,
      j.pid = some (childId x k) ∧ j.cb = cbW := by
  induction cs generalizing i st acc ids with
  | nil => simp at hk2; omega
  | cons c rest ih =>
    simp only [addAnyGo, Option.map_some'] at hok ⊢
    rcases ha : add env c cbW meta (some (childId x i)) st with ⟨st', r⟩
    rw [ha] at hok
    cases r with
    | err e => simp at hok
    | ok ids' =>
      simp only at hok ⊢
      by_cases hik : k = i
      · subst hik
        obtain ⟨j, hjmem, hjpid, hjcb⟩ := add_exists_new env c cbW meta
          (some (childId x k)) st ids' (by rw [ha])
        rw [ha] at hjmem
        exact ⟨j, addAnyGo_mono env cbW meta x rest (k + 1) st' (acc ++ ids') j hjmem,
          hjpid, hjcb⟩
      · exact ih (i + 1) st' (acc ++ ids') ids hok (by omega) (by simp at hk2 ⊢; omega)

theorem appendSpawns_mem (pid : Option String) (cb : Cb)
    (ds : List (Trig × JobKind)) (st : SchedState) (j : Job) (hj : j ∈ st.jobs) :
    j ∈ (appendSpawns pid cb ds st).jobs := by
  induction ds generalizing st with
  | nil => exact hj
  | cons d rest ih =>
    simp only [appendSpawns]
    exact ih _ (by rw [mkJob_jobs]; exact List.mem_append_left _ hj)

/-! ## C2 — composite (`add_any`) semantics -/

/-- C2: for `add_any(children, u, meta, x)` succeeding: (1) every job of the
resulting state is either pre-existing or registered under a derived child
id `x#i` (`i < len(children)`) with the wrapper callback; (2) every position
`i` has such a job; (3) firing any job carrying the wrapper: a start-phase
firing invokes the caller's callback exactly once, with the payload wrapping
the triggering child event (which carries the child's id), an end-phase
firing invokes it zero times, and every other registered job — in particular
every other child's trigger — stays registered. -/
theorem C2_add_any_children (env : Env) (children : List Spec) (u : Nat)
    (meta : Meta) (x : String) (st0 st1 : SchedState) (ids : List JHandle)
    (haa : addAny env children (.user u) meta (some x) st0 = (st1, .ok ids)) :
    (∀ j ∈ st1.jobs, j ∈ st0.jobs ∨
      (j.cb = .anyWrap (.user u) ∧
        ∃ i, i < children.length ∧ j.pid = some (childId x i))) ∧
    (∀ i, i < children.length →
      ∃ j ∈ st1.jobs, j.pid = some (childId x i) ∧ j.cb = .anyWrap (.user u)) ∧
    (∀ (n : Nat) (j : Job),
      st1.jobs.find? (fun y => y.id == n) = some j →
      j.cb = .anyWrap (.user u) →
      (phaseOf j.kind = true →
        (fireById env st1 n).1 = [⟨u, .wrapped ⟨true, j.pid⟩⟩]) ∧
      (phaseOf j.kind = false → (fireById env st1 n).1 = []) ∧
      (∀ k ∈ st1.jobs, k.id ≠ n → k ∈ (fireById env st1 n).2.jobs)) := by
  have hgo : st1.jobs = (addAnyGo env (.anyWrap (.user u)) meta (some x) 0 children
      st0 []).1.jobs ∧
      ∃ ids', (addAnyGo env (.anyWrap (.user u)) meta (some x) 0 children
        st0 []).2 = .ok ids' := by
    rcases hg : addAnyGo env (.anyWrap (.user u)) meta (some x) 0 children st0 []
      with ⟨stg, rg⟩
    simp only [addAny, hg] at haa
    cases rg with
    | err e => simp at haa
    | ok ids' =>
      simp only at haa
      split at haa
      · obtain ⟨h1, -⟩ := Prod.mk.injEq .. ▸ haa
        refine ⟨?_, ids', rfl⟩
        rw [← h1, persistUpsert_jobs]
      · simp at haa
  obtain ⟨hjobs, ids', hok⟩ := hgo
  refine ⟨?_, ?_, ?_⟩
  · intro j hj
    rw [hjobs] at hj
    rcases addAnyGo_mem env _ meta x children 0 st0 [] j hj with h | ⟨hcb, k, -, hk, hpid⟩
    · exact Or.inl h
    · exact Or.inr ⟨hcb, k, by simpa using hk, hpid⟩
  · intro i hi
    obtain ⟨j, hjmem, hjpid, hjcb⟩ := addAnyGo_exists env _ meta x children 0 st0 []
      ids' hok i (Nat.zero_le i) (by simpa using hi)
    exact ⟨j, by rw [hjobs]; exact hjmem, hjpid, hjcb⟩
  · intro n j hfind hcb
    refine ⟨?_, ?_, ?_⟩
    · intro hph
      simp only [fireById, hfind, hcb, deliver, hph]
      rfl
    · intro hph
      simp only [fireById, hfind, hcb, deliver, hph]
      rfl
    · intro k hk hkne
      simp only [fireById, hfind]
      refine appendSpawns_mem _ _ _ _ k ?_
      split
      · exact List.mem_filter.mpr ⟨hk, by simpa using hkne⟩
      · exact hk

/-- C2 witness: a two-child composite under id `"ev"`; firing the first
child's cron trigger (job 0, tagged `ev#0`) invokes the caller's callback
exactly once with the wrapped event, and the second child's trigger stays
registered. -/
theorem C2_add_any_children_witness :
    addAny envW [.atS (.timeOnly ⟨7, 30, 0⟩), .atS (.sunAt true 0)] (.user 1) []
      (some "ev") emptyState = (stAny, .ok [.real 0, .descr "sun-at:108000"]) ∧
    (∀ i, i < 2 →
      ∃ j ∈ stAny.jobs, j.pid = some (childId "ev" i) ∧ j.cb = .anyWrap (.user 1)) := by
  have h := C2_add_any_children envW [.atS (.timeOnly ⟨7, 30, 0⟩), .atS (.sunAt true 0)]
    1 [] "ev" emptyState stAny [.real 0, .descr "sun-at:108000"] (by decide)
  exact ⟨by decide, by simpa using h.2.1⟩

/-! ## Removal and firing-trace lemmas for C1 -/

theorem mem_foldl_append_init (l : List (String × List Nat)) (init : List Nat)
    (n : Nat) (hn : n ∈ init) :
    n ∈ l.foldl (fun acc e => acc ++ e.2) init := by
  induction l generalizing init with
  | nil => exact hn
  | cons e rest ih => exact ih (init ++ e.2) (List.mem_append_left _ hn)

theorem mem_foldl_append (l : List (String × List Nat)) (e : String × List Nat)
    (he : e ∈ l) (n : Nat) (hn : n ∈ e.2) (init : List Nat) :
    n ∈ l.foldl (fun acc e' => acc ++ e'.2) init := by
  induction l generalizing init with
  | nil => cases he
  | cons e' rest ih =>
    rcases List.mem_cons.mp he with rfl | he'
    · exact mem_foldl_append_init rest (init ++ e.2) n (List.mem_append_right _ hn)
    · exact ih he' (init ++ e'.2)

theorem deliver_tag (cb : Cb) (a : CbArg) (c : UCall) (hc : c ∈ deliver cb a) :
    argTag c.arg = argTag a := by
  induction cb generalizing a with
  | user u =>
    simp only [deliver] at hc
    rcases List.mem_singleton.mp hc with rfl
    rfl
  | anyWrap inner ih =>
    cases a with
    | pl ev =>
      simp only [deliver] at hc
      split at hc
      · exact ih (.wrapped ev) hc
      · cases hc
    | wrapped ev => cases hc

theorem appendSpawns_noTag (x : String) (pid : Option String) (cb : Cb)
    (ds : List (Trig × JobKind)) (st : SchedState)
    (hst : noTagB x st = true) (hpid : tagMatch x pid = false) :
    noTagB x (appendSpawns pid cb ds st) = true := by
  induction ds generalizing st with
  | nil => exact hst
  | cons d rest ih =>
    simp only [appendSpawns]
    refine ih _ ?_
    simp only [noTagB, mkJob_jobs, List.all_append] at hst ⊢
    simp [hst, hpid]

/-- One firing preserves the absence of jobs tagged with `x` (re-arming
reuses the fired job's `persist_id`) and emits only calls whose events carry
the fired job's tag. -/
theorem fireById_noTag (env : Env) (x : String) (st : SchedState) (n : Nat)
    (hst : noTagB x st = true) :
    noTagB x (fireById env st n).2 = true ∧
    ((fireById env st n).1.all (fun c => !(tagMatch x (argTag c.arg)))) = true := by
  cases hfind : st.jobs.find? (fun j => j.id == n) with
  | none => simp [fireById, hfind, hst]
  | some j =>
    have hjmem := List.mem_of_find?_eq_some hfind
    have hjtag : tagMatch x j.pid = false := by
      have := List.all_eq_true.mp hst j hjmem
      simpa using this
    constructor
    · simp only [fireById, hfind]
      refine appendSpawns_noTag x j.pid j.cb _ _ ?_ hjtag
      split
      · simp only [noTagB, List.all_eq_true] at hst ⊢
        intro y hy
        exact hst y (List.mem_filter.mp hy).1
      · exact hst
    · simp only [fireById, hfind]
      rw [List.all_eq_true]
      intro c hc
      have htg := deliver_tag j.cb (.pl ⟨phaseOf j.kind, j.pid⟩) c hc
      rw [htg]
      simp [argTag, hjtag]

/-- A whole firing trace from a state with no `x`-tagged jobs emits only
events not tagged with `x` or any `x#…` id. -/
theorem runFires_noTag (env : Env) (x : String) (st : SchedState)
    (ns : List Nat) (hst : noTagB x st = true) :
    ((runFires env st ns).1.all (fun c => !(tagMatch x (argTag c.arg)))) = true := by
  induction ns generalizing st with
  | nil => rfl
  | cons n rest ih =>
    obtain ⟨h1, h2⟩ := fireById_noTag env x st n hst
    simp only [runFires, List.all_append]
    rw [h2, ih _ h1]
    rfl

/-! ## C1 — `remove_persisted_by_id` -/

/-- C1: from any state satisfying the index invariant, after
`remove_persisted_by_id(x)`: (1) every job handle indexed under `x` or any
`x#…` id has been cancelled; (2) no registered job is tagged `x` or `x#…`;
(3) every persistence record whose id is `x` or starts with `x#` is deleted;
(4) no sequence of future firings — including the re-registrations the
self-rearming chains perform — produces an event tagged `x` or `x#…`;
(5) removing an id matching no index entry and no record is a no-op (and the
operation is total: a missing id raises nothing). -/
theorem C1_remove_persisted_by_id (env : Env) (x : String) (st : SchedState)
    (hinv : invOk st = true) :
    (∀ e ∈ st.index, pidMatch x e.1 = true → ∀ n ∈ e.2,
      ((removePersistedById x st).jobs.any (fun j => j.id == n)) = false) ∧
    noTagB x (removePersistedById x st) = true ∧
    ((removePersistedById x st).store.all (fun r => !(recMatch x r.id))) = true ∧
    (∀ ns : List Nat,
      ((runFires env (removePersistedById x st) ns).1.all
        (fun c => !(tagMatch x (argTag c.arg)))) = true) ∧
    ((st.index.all (fun e => !(pidMatch x e.1)) = true ∧
      st.store.all (fun r => !(recMatch x r.id)) = true) →
      removePersistedById x st = st) := by
  have hclean : ∀ e ∈ st.index, pidMatch x e.1 = true → ∀ n ∈ e.2,
      ((removePersistedById x st).jobs.any (fun j => j.id == n)) = false := by
    intro e he hmat n hn
    rw [List.any_eq_false]
    intro j hj
    simp only [removePersistedById] at hj
    have hkeep := (List.mem_filter.mp hj).2
    have hrem : n ∈ (st.index.filter (fun e' => pidMatch x e'.1)).foldl
        (fun acc e' => acc ++ e'.2) [] :=
      mem_foldl_append _ e (List.mem_filter.mpr ⟨he, hmat⟩) n hn []
    simp only [Bool.not_eq_true'] at hkeep
    rw [List.contains_eq_any_beq] at hkeep
    rw [List.any_eq_false] at hkeep
    intro hid
    exact hkeep n hrem (by simp [eq_of_beq hid])
  have hnotag : noTagB x (removePersistedById x st) = true := by
    rw [noTagB, List.all_eq_true]
    intro j hj
    have hjorig : j ∈ st.jobs := by
      have h' := hj
      simp only [removePersistedById] at h'
      exact (List.mem_filter.mp h').1
    cases hp : j.pid with
    | none => simp [tagMatch]
    | some p =>
      simp only [tagMatch, Bool.not_eq_true']
      by_contra hne
      have hmat : pidMatch x p = true := by
        cases hq : pidMatch x p
        · simp [hq] at hne
        · rfl
      have hi := List.all_eq_true.mp hinv j hjorig
      rw [hp] at hi
      simp only at hi
      cases hfe : st.index.find? (fun e => e.1 == p) with
      | none => rw [idxLookup, hfe] at hi; simp at hi
      | some e =>
        rw [idxLookup, hfe] at hi
        have hemem := List.mem_of_find?_eq_some hfe
        have hekey : e.1 = p := by
          have := List.find?_some hfe
          simpa using this
        have hid : j.id ∈ e.2 := by
          rw [List.contains_eq_any_beq, List.any_eq_true] at hi
          obtain ⟨m, hm, hbm⟩ := hi
          obtain rfl := eq_of_beq hbm
          exact hm
        have := hclean e hemem (by rw [hekey]; exact hmat) j.id hid
        rw [List.any_eq_false] at this
        exact this j hj (by simp)
  refine ⟨hclean, hnotag, ?_, ?_, ?_⟩
  · rw [List.all_eq_true]
    intro r hr
    have h' := hr
    simp only [removePersistedById] at h'
    exact (List.mem_filter.mp h').2
  · intro ns
    exact runFires_noTag env x _ ns hnotag
  · rintro ⟨hidx, hstore⟩
    have e1 : st.index.filter (fun e => !(pidMatch x e.1)) = st.index :=
      List.filter_eq_self.mpr (List.all_eq_true.mp hidx)
    have e0 : st.index.filter (fun e => pidMatch x e.1) = [] := by
      rw [List.filter_eq_nil_iff]
      intro e he
      have := List.all_eq_true.mp hidx e he
      simpa using this
    have e3 : st.store.filter (fun r => !(recMatch x r.id)) = st.store :=
      List.filter_eq_self.mpr (List.all_eq_true.mp hstore)
    simp only [removePersistedById, e0, e1, e3]
    have e2 : st.jobs.filter
        (fun j => !((([] : List (String × List Nat)).foldl
          (fun acc e => acc ++ e.2) []).contains j.id)) = st.jobs :=
      List.filter_eq_self.mpr (fun j _ => by simp)
    rw [e2]

/-- C1 witness: removing the composite id `"ev"` from the two-child state
cancels both children's jobs, deletes the three matching records, and any
subsequent firing trace delivers no event tagged `ev` or `ev#…`; removing
the never-registered id `"zzz"` is a no-op. -/
theorem C1_remove_persisted_by_id_witness :
    invOk stAny = true ∧
    noTagB "ev" (removePersistedById "ev" stAny) = true ∧
    ((removePersistedById "ev" stAny).store.all
      (fun r => !(recMatch "ev" r.id))) = true ∧
    ((runFires envW (removePersistedById "ev" stAny) [0, 1, 2]).1.all
      (fun c => !(tagMatch "ev" (argTag c.arg)))) = true ∧
    removePersistedById "zzz" stAny = stAny :=
  ⟨by decide,
   (C1_remove_persisted_by_id envW "ev" stAny (by decide)).2.1,
   (C1_remove_persisted_by_id envW "ev" stAny (by decide)).2.2.1,
   (C1_remove_persisted_by_id envW "ev" stAny (by decide)).2.2.2.1 [0, 1, 2],
   (C1_remove_persisted_by_id envW "zzz" stAny (by decide)).2.2.2.2
     ⟨by decide, by decide⟩⟩

/-! ## Store effect of `add`, for the reload claims -/

theorem setdefault_hasKey (m : Meta) (k v : String) (h : hasKeyB m k = true) :
    setdefault m k v = m := by
  simp only [hasKeyB] at h
  simp [setdefault, h]

theorem isPlainValid_elim (ps : PSpec) (h : isPlainValid ps = true) :
    ∃ s, ps = .plain s ∧ specValid s = true := by
  cases ps with
  | plain s => exact ⟨s, rfl, h⟩
  | anyKind cs => simp [isPlainValid] at h
  | annualFixed m d t => simp [isPlainValid] at h
  | annualDates ds t => simp [isPlainValid] at h
  | annualNthK m w nth t => simp [isPlainValid] at h
  | holidayAtK p t tc cats ya => simp [isPlainValid] at h
  | holidayWindowK p t wend tc cats ya => simp [isPlainValid] at h

theorem addSched_store (env : Env) (spec : Spec) (cb : Cb) (pid : Option String)
    (st : SchedState) : (addSched env spec cb pid st).1.store = st.store := by
  cases spec with
  | atS a => cases a <;> rfl
  | range f =>
    cases f with
    | once d t e => rfl
    | recur rf =>
      cases h : cronRangeTime rf with
      | some t => simp [addSched, scheduleRange, h, mkJob]
      | none => simp [addSched, scheduleRange, h, mkJob]
  | weekly w =>
    cases h : w.days.mapM dowMap with
    | none =>
      simp only [addSched, scheduleWeekly]
      rw [h]
    | some ds =>
      simp only [addSched, scheduleWeekly]
      rw [h]
      cases w.wend <;> rfl

theorem addSched_ok_of_valid (env : Env) (spec : Spec) (cb : Cb)
    (pid : Option String) (st : SchedState) (hv : specValid spec = true) :
    ∃ stS hs, addSched env spec cb pid st = (stS, .ok hs) := by
  cases spec with
  | atS a => cases a <;> exact ⟨_, _, rfl⟩
  | range f =>
    cases f with
    | once d t e => exact ⟨_, _, rfl⟩
    | recur rf =>
      cases h : cronRangeTime rf with
      | some t =>
        refine ⟨(mkJob st pid cb (.cron none none none t.hour t.minute t.second)
          (.dailyRange rf)).2, [.real st.fresh], ?_⟩
        simp [addSched, scheduleRange, h, mkJob]
      | none =>
        refine ⟨(mkJob st pid cb (.atDate (nextWindow env rf).1)
          (.sunRange rf (nextWindow env rf).2)).2,
          [.descr ("sun-range:" ++ toString (nextWindow env rf).1)], ?_⟩
        simp [addSched, scheduleRange, h, mkJob]
  | weekly w =>
    cases h : w.days.mapM dowMap with
    | none =>
      simp only [specValid] at hv
      rw [h] at hv
      simp at hv
    | some ds =>
      cases he : w.wend with
      | wTo t2 =>
        refine ⟨(mkJob st pid cb
          (.cron (some ds) none none w.time.hour w.time.minute w.time.second)
          (.weeklyTo w.time t2)).2, [.real st.fresh], ?_⟩
        simp only [addSched, scheduleWeekly]
        rw [h, he]
        rfl
      | wFor dur =>
        refine ⟨(mkJob st pid cb
          (.cron (some ds) none none w.time.hour w.time.minute w.time.second)
          (.weeklyFor w.time dur)).2, [.real st.fresh], ?_⟩
        simp only [addSched, scheduleWeekly]
        rw [h, he]
        rfl

/-- A valid `add` under a logical id succeeds and upserts exactly one
record (the spec under the id, with `persist_id` defaulted into the meta). -/
theorem add_store (env : Env) (s : Spec) (cb : Cb) (m : Meta) (rid : String)
    (cur : SchedState) (henv : env.persistOk = true) (hv : specValid s = true) :
    isOkR (add env s cb m (some rid) cur).2 = true ∧
    (add env s cb m (some rid) cur).1.store =
      cur.store.filter (fun q => !(q.id == rid)) ++
        [⟨rid, .plain s, setdefault m "persist_id" rid⟩] := by
  obtain ⟨stS, hs, hd⟩ := addSched_ok_of_valid env s cb (some rid) cur hv
  have hu := persistUpsert_snd env (some rid) (.plain s)
    (setdefault m "persist_id" rid) stS henv
  constructor
  · simp only [add, hd]
    rw [if_pos hu]
    rfl
  · simp only [add, hd]
    rw [if_pos hu]
    simp only [persistUpsert, henv, if_pos]
    have := addSched_store env s cb (some rid) cur
    rw [hd] at this
    simp only at this
    rw [this]

/-! ## C7 — reload skips unresolved records and never deletes -/

/-- The invariant carried through the `load_persisted` loop: the store keeps
exactly the original records, ids stay unique, and every job not present
originally is tagged with a resolver-known id. -/
theorem loadPGo_inv (env : Env) (resolver : String → Option Nat)
    (rs : List PRec) (st0 cur : SchedState)
    (henv : env.persistOk = true)
    (hrs : ∀ r ∈ rs, resolver r.id ≠ none →
      isPlainValid r.spec = true ∧ hasKeyB r.meta "persist_id" = true)
    (hrsmem : ∀ r ∈ rs, r ∈ cur.store)
    (hiff : ∀ q, q ∈ cur.store ↔ q ∈ st0.store)
    (hnodup : (cur.store.map (fun q => q.id)).Nodup)
    (hjobs : ∀ j ∈ cur.jobs, j ∈ st0.jobs ∨ ∃ p, j.pid = some p ∧ resolver p ≠ none) :
    (loadPGo env resolver rs cur).2 = .ok () ∧
    (∀ q, q ∈ (loadPGo env resolver rs cur).1.store ↔ q ∈ st0.store) ∧
    (∀ j ∈ (loadPGo env resolver rs cur).1.jobs,
      j ∈ st0.jobs ∨ ∃ p, j.pid = some p ∧ resolver p ≠ none) := by
  induction rs generalizing cur with
  | nil => exact ⟨rfl, hiff, hjobs⟩
  | cons r rest ih =>
    simp only [loadPGo]
    cases hres : resolver r.id with
    | none =>
      exact ih cur (fun q hq => hrs q (by simp [hq]) )
        (fun q hq => hrsmem q (by simp [hq])) hiff hnodup hjobs
    | some u =>
      obtain ⟨hpv, hkey⟩ := hrs r (by simp) (by simp [hres])
      obtain ⟨s, hspec, hval⟩ := isPlainValid_elim r.spec hpv
      obtain ⟨hok, hstore⟩ := add_store env s (.user u) r.meta r.id cur henv hval
      rcases ha : add env s (.user u) r.meta (some r.id) cur with ⟨st', ra⟩
      rw [ha] at hok hstore
      simp only [hspec, ha]
      cases ra with
      | err e => simp [isOkR] at hok
      | ok ids =>
        simp only at hok hstore ⊢
        rw [setdefault_hasKey r.meta _ r.id hkey] at hstore
        have hrec : (⟨r.id, PSpec.plain s, r.meta⟩ : PRec) = r := by
          rw [← hspec]
        rw [hrec] at hstore
        have hrin : r ∈ cur.store := hrsmem r (by simp)
        have hinj : ∀ a ∈ cur.store, ∀ b ∈ cur.store, a.id = b.id → a = b := by
          intro a ha' b hb' hab
          exact List.inj_on_of_nodup_map hnodup ha' hb' hab
        have hiff' : ∀ q, q ∈ st'.store ↔ q ∈ cur.store := by
          intro q
          rw [hstore]
          constructor
          · intro hq
            rcases List.mem_append.mp hq with hq | hq
            · exact (List.mem_filter.mp hq).1
            · rw [List.mem_singleton.mp hq]
              exact hrin
          · intro hq
            by_cases hqid : q.id = r.id
            · have : q = r := hinj q hq r hrin hqid
              subst this
              exact List.mem_append_right _ (by simp)
            · exact List.mem_append_left _
                (List.mem_filter.mpr ⟨hq, by simpa using hqid⟩)
        have hnodup' : (st'.store.map (fun q => q.id)).Nodup := by
          rw [hstore, List.map_append]
          rw [List.nodup_append]
          refine ⟨List.Nodup.sublist (List.Sublist.map _ (List.filter_sublist _)) hnodup,
            List.nodup_singleton _, ?_⟩
          intro a hamem
          obtain ⟨q, hq, rfl⟩ := List.mem_map.mp hamem
          have := (List.mem_filter.mp hq).2
          intro hcon
          simp at hcon
          rw [hcon] at this
          simp at this
        refine ih st' (fun q hq => hrs q (by simp [hq]))
          (fun q hq => (hiff' q).mpr (hrsmem q (by simp [hq])))
          (fun q => (hiff' q).trans (hiff q)) hnodup' ?_
        intro j hj
        have := add_mem_new env s (.user u) r.meta (some r.id) cur j (by rw [ha]; exact hj)
        rcases this with hmem | ⟨hpid, -⟩
        · exact hjobs j hmem
        · exact Or.inr ⟨r.id, hpid, by simp [hres]⟩

/-- C7: when the resolver does not recognise a record's id, reload registers
no trigger for it and leaves the record in the store; reload deletes and
modifies no stored record (the store holds exactly the same records
afterwards).  Hypotheses: persistence healthy; every record the resolver
does recognise was written by `add` (a plain, valid spec whose stored meta
already carries the `persist_id` key — which `add` always writes); record
ids unique (the store is keyed by id). -/
theorem C7_reload_skips_unresolved (env : Env) (resolver : String → Option Nat)
    (st : SchedState)
    (henv : env.persistOk = true)
    (hrs : ∀ r ∈ st.store, resolver r.id ≠ none →
      isPlainValid r.spec = true ∧ hasKeyB r.meta "persist_id" = true)
    (hnodup : (st.store.map (fun q => q.id)).Nodup) :
    (loadPersisted env resolver st).2 = .ok () ∧
    (∀ q, q ∈ (loadPersisted env resolver st).1.store ↔ q ∈ st.store) ∧
    (∀ j ∈ (loadPersisted env resolver st).1.jobs,
      j ∈ st.jobs ∨ ∃ p, j.pid = some p ∧ resolver p ≠ none) ∧
    (∀ r ∈ st.store, resolver r.id = none →
      r ∈ (loadPersisted env resolver st).1.store ∧
      (∀ j ∈ (loadPersisted env resolver st).1.jobs, j ∉ st.jobs →
        j.pid ≠ some r.id)) := by
  obtain ⟨h1, h2, h3⟩ := loadPGo_inv env resolver st.store st st henv hrs
    (fun r hr => hr) (fun q => Iff.rfl) hnodup (fun j hj => Or.inl hj)
  refine ⟨h1, h2, h3, ?_⟩
  intro r hr hres
  refine ⟨(h2 r).mpr hr, ?_⟩
  intro j hj hnotold
  rcases h3 j hj with hold | ⟨p, hp, hpres⟩
  · exact absurd hold hnotold
  · intro hcon
    rw [hcon] at hp
    obtain rfl : p = r.id := by
      injection hp.symm
    exact hpres hres

/-- C7 witness: reloading a two-record store whose resolver recognises only
`"a"` succeeds, keeps the unresolved record `"b"` in the store, and every
job created by the reload carries a resolver-known id. -/
theorem C7_reload_skips_unresolved_witness :
    envW.persistOk = true ∧
    (∀ r ∈ stRestart.store, resolveA r.id ≠ none →
      isPlainValid r.spec = true ∧ hasKeyB r.meta "persist_id" = true) ∧
    (loadPersisted envW resolveA stRestart).2 = .ok () ∧
    recB ∈ (loadPersisted envW resolveA stRestart).1.store :=
  ⟨rfl, by decide,
   (C7_reload_skips_unresolved envW resolveA stRestart rfl (by decide) (by decide)).1,
   ((C7_reload_skips_unresolved envW resolveA stRestart rfl (by decide)
     (by decide)).2.1 recB).mpr (by decide)⟩

/-! ## Callback-independence of the registered trigger shapes (for C3) -/

theorem mkJob_shape (st1 st2 : SchedState) (pid : Option String) (c1 c2 : Cb)
    (t : Trig) (k : JobKind) (hs : jobsShape st1 = jobsShape st2)
    (hf : st1.fresh = st2.fresh) :
    jobsShape (mkJob st1 pid c1 t k).2 = jobsShape (mkJob st2 pid c2 t k).2 ∧
    (mkJob st1 pid c1 t k).2.fresh = (mkJob st2 pid c2 t k).2.fresh := by
  constructor
  · simp only [mkJob, jobsShape, List.map_append]
    rw [← jobsShape, ← jobsShape, hs]
    simp [shapeJ, hf]
  · simp [mkJob, hf]

theorem persistUpsert_snd_eq (env : Env) (pid : Option String) (ps1 ps2 : PSpec)
    (m1 m2 : Meta) (s1 s2 : SchedState) :
    (persistUpsert env pid ps1 m1 s1).2 = (persistUpsert env pid ps2 m2 s2).2 := by
  cases pid with
  | none => rfl
  | some p =>
    simp only [persistUpsert]
    split
    · rfl
    · rfl

/-- The dispatch registers the same trigger shapes, fresh counter and
handles whatever the callback and metadata are. -/
theorem addSched_shape (env : Env) (spec : Spec) (c1 c2 : Cb)
    (pid : Option String) (st1 st2 : SchedState)
    (hs : jobsShape st1 = jobsShape st2) (hf : st1.fresh = st2.fresh) :
    jobsShape (addSched env spec c1 pid st1).1 = jobsShape (addSched env spec c2 pid st2).1 ∧
    (addSched env spec c1 pid st1).1.fresh = (addSched env spec c2 pid st2).1.fresh ∧
    (addSched env spec c1 pid st1).2 = (addSched env spec c2 pid st2).2 := by
  cases spec with
  | atS a =>
    cases a with
    | dateTime d t =>
      obtain ⟨h1, h2⟩ := mkJob_shape st1 st2 pid c1 c2
        (.atDate (combine d.days t)) (.plain true) hs hf
      exact ⟨h1, h2, by simp [addSched, scheduleAt, mkJob, hf]⟩
    | timeOnly t =>
      obtain ⟨h1, h2⟩ := mkJob_shape st1 st2 pid c1 c2
        (.cron none none none t.hour t.minute t.second) (.plain true) hs hf
      exact ⟨h1, h2, by simp [addSched, scheduleAt, mkJob, hf]⟩
    | sunAt w off =>
      obtain ⟨h1, h2⟩ := mkJob_shape st1 st2 pid c1 c2
        (.atDate (sunNextAt env w off)) (.sunAtK w off) hs hf
      exact ⟨h1, h2, by simp [addSched, scheduleAt, mkJob]⟩
  | range f =>
    cases f with
    | once d t e =>
      cases e with
      | oFor dur =>
        obtain ⟨h1, h2⟩ := mkJob_shape st1 st2 pid c1 c2
          (.atDate (combine d.days t)) (.plain true) hs hf
        obtain ⟨h3, h4⟩ := mkJob_shape _ _ pid c1 c2
          (.atDate (combine d.days t + dur.secs)) (.plain false) h1 h2
        exact ⟨h3, h4, by simp [addSched, scheduleRange, mkJob, hf]⟩
      | oTo d2 t2 =>
        obtain ⟨h1, h2⟩ := mkJob_shape st1 st2 pid c1 c2
          (.atDate (combine d.days t)) (.plain true) hs hf
        obtain ⟨h3, h4⟩ := mkJob_shape _ _ pid c1 c2
          (.atDate (combine d2.days t2)) (.plain false) h1 h2
        exact ⟨h3, h4, by simp [addSched, scheduleRange, mkJob, hf]⟩
    | recur rf =>
      cases h : cronRangeTime rf with
      | some t =>
        obtain ⟨h1, h2⟩ := mkJob_shape st1 st2 pid c1 c2
          (.cron none none none t.hour t.minute t.second) (.dailyRange rf) hs hf
        refine ⟨?_, ?_, ?_⟩
        · simpa [addSched, scheduleRange, h] using h1
        · simpa [addSched, scheduleRange, h] using h2
        · simp [addSched, scheduleRange, h, mkJob, hf]
      | none =>
        obtain ⟨h1, h2⟩ := mkJob_shape st1 st2 pid c1 c2
          (.atDate (nextWindow env rf).1) (.sunRange rf (nextWindow env rf).2) hs hf
        refine ⟨?_, ?_, ?_⟩
        · simpa [addSched, scheduleRange, h] using h1
        · simpa [addSched, scheduleRange, h] using h2
        · simp [addSched, scheduleRange, h, mkJob]
  | weekly w =>
    cases h : w.days.mapM dowMap with
    | none =>
      refine ⟨?_, ?_, ?_⟩
      · simp only [addSched, scheduleWeekly]
        rw [h]
        simpa using hs
      · simp only [addSched, scheduleWeekly]
        rw [h]
        simpa using hf
      · simp only [addSched, scheduleWeekly]
        rw [h]
    | some ds =>
      cases he : w.wend with
      | wTo t2 =>
        obtain ⟨h1, h2⟩ := mkJob_shape st1 st2 pid c1 c2
          (.cron (some ds) none none w.time.hour w.time.minute w.time.second)
          (.weeklyTo w.time t2) hs hf
        refine ⟨?_, ?_, ?_⟩
        · simp only [addSched, scheduleWeekly]
          rw [h, he]
          simpa using h1
        · simp only [addSched, scheduleWeekly]
          rw [h, he]
          simpa using h2
        · simp only [addSched, scheduleWeekly]
          rw [h, he]
          simp [mkJob, hf]
      | wFor dur =>
        obtain ⟨h1, h2⟩ := mkJob_shape st1 st2 pid c1 c2
          (.cron (some ds) none none w.time.hour w.time.minute w.time.second)
          (.weeklyFor w.time dur) hs hf
        refine ⟨?_, ?_, ?_⟩
        · simp only [addSched, scheduleWeekly]
          rw [h, he]
          simpa using h1
        · simp only [addSched, scheduleWeekly]
          rw [h, he]
          simpa using h2
        · simp only [addSched, scheduleWeekly]
          rw [h, he]
          simp [mkJob, hf]

theorem add_fresh (env : Env) (spec : Spec) (cb : Cb) (meta : Meta)
    (pid : Option String) (st : SchedState) :
    (add env spec cb meta pid st).1.fresh = (addSched env spec cb pid st).1.fresh := by
  simp only [add]
  rcases h : addSched env spec cb pid st with ⟨st1, r⟩
  cases r with
  | err e => simp
  | ok hs =>
    simp only
    split
    · rw [persistUpsert_fresh]
    · rw [persistUpsert_fresh]

theorem add_snd_eq (env : Env) (spec : Spec) (c1 c2 : Cb) (m1 m2 : Meta)
    (pid : Option String) (st1 st2 : SchedState)
    (h : (addSched env spec c1 pid st1).2 = (addSched env spec c2 pid st2).2) :
    (add env spec c1 m1 pid st1).2 = (add env spec c2 m2 pid st2).2 := by
  rcases hA : addSched env spec c1 pid st1 with ⟨sA, rA⟩
  rcases hB : addSched env spec c2 pid st2 with ⟨sB, rB⟩
  rw [hA, hB] at h
  simp only at h
  subst h
  cases rA with
  | err e => simp [add, hA, hB]
  | ok hsl =>
    simp only [add, hA, hB]
    cases pid with
    | none => simp [persistUpsert]
    | some p => cases henv : env.persistOk <;> simp [persistUpsert, henv]

/-- `add` registers the same trigger shapes and returns the same handles
whatever the callback and metadata are. -/
theorem add_shape (env : Env) (spec : Spec) (c1 c2 : Cb) (m1 m2 : Meta)
    (pid : Option String) (st1 st2 : SchedState)
    (hs : jobsShape st1 = jobsShape st2) (hf : st1.fresh = st2.fresh) :
    jobsShape (add env spec c1 m1 pid st1).1 = jobsShape (add env spec c2 m2 pid st2).1 ∧
    (add env spec c1 m1 pid st1).1.fresh = (add env spec c2 m2 pid st2).1.fresh ∧
    (add env spec c1 m1 pid st1).2 = (add env spec c2 m2 pid st2).2 := by
  obtain ⟨g1, g2, g3⟩ := addSched_shape env spec c1 c2 pid st1 st2 hs hf
  refine ⟨?_, ?_, add_snd_eq env spec c1 c2 m1 m2 pid st1 st2 g3⟩
  · simp only [jobsShape, add_jobs]
    exact g1
  · rw [add_fresh, add_fresh]
    exact g2

theorem addAnyGo_shape (env : Env) (c1 c2 : Cb) (m1 m2 : Meta)
    (pid : Option String) (cs : List Spec) (i : Nat) (st1 st2 : SchedState)
    (acc : List JHandle)
    (hs : jobsShape st1 = jobsShape st2) (hf : st1.fresh = st2.fresh) :
    jobsShape (addAnyGo env c1 m1 pid i cs st1 acc).1 =
      jobsShape (addAnyGo env c2 m2 pid i cs st2 acc).1 ∧
    (addAnyGo env c1 m1 pid i cs st1 acc).1.fresh =
      (addAnyGo env c2 m2 pid i cs st2 acc).1.fresh ∧
    (addAnyGo env c1 m1 pid i cs st1 acc).2 = (addAnyGo env c2 m2 pid i cs st2 acc).2 := by
  induction cs generalizing i st1 st2 acc with
  | nil => exact ⟨hs, hf, rfl⟩
  | cons c rest ih =>
    simp only [addAnyGo]
    obtain ⟨a1, a2, a3⟩ := add_shape env c c1 c2 m1 m2
      (pid.map (fun p => childId p i)) st1 st2 hs hf
    rcases hA : add env c c1 m1 (pid.map (fun p => childId p i)) st1 with ⟨sA, rA⟩
    rcases hB : add env c c2 m2 (pid.map (fun p => childId p i)) st2 with ⟨sB, rB⟩
    rw [hA, hB] at a1 a2 a3
    simp only at a1 a2 a3
    subst a3
    cases rA with
    | err e => exact ⟨a1, a2, rfl⟩
    | ok ids => exact ih (i + 1) sA sB (acc ++ ids) a1 a2

theorem addAny_shape (env : Env) (cs : List Spec) (c1 c2 : Cb) (m1 m2 : Meta)
    (pid : Option String) (st1 st2 : SchedState)
    (hs : jobsShape st1 = jobsShape st2) (hf : st1.fresh = st2.fresh) :
    jobsShape (addAny env cs c1 m1 pid st1).1 = jobsShape (addAny env cs c2 m2 pid st2).1 ∧
    (addAny env cs c1 m1 pid st1).1.fresh = (addAny env cs c2 m2 pid st2).1.fresh ∧
    (addAny env cs c1 m1 pid st1).2 = (addAny env cs c2 m2 pid st2).2 := by
  obtain ⟨a1, a2, a3⟩ := addAnyGo_shape env (.anyWrap c1) (.anyWrap c2) m1 m2 pid cs 0
    st1 st2 [] hs hf
  rcases hA : addAnyGo env (.anyWrap c1) m1 pid 0 cs st1 [] with ⟨sA, rA⟩
  rcases hB : addAnyGo env (.anyWrap c2) m2 pid 0 cs st2 [] with ⟨sB, rB⟩
  rw [hA, hB] at a1 a2 a3
  simp only at a1 a2 a3
  subst a3
  have a1' : sA.jobs.map shapeJ = sB.jobs.map shapeJ := a1
  cases rA with
  | err e =>
    refine ⟨?_, ?_, ?_⟩ <;> simp [addAny, hA, hB, jobsShape, a1', a2]
  | ok ids =>
    cases pid with
    | none =>
      refine ⟨?_, ?_, ?_⟩ <;> simp [addAny, hA, hB, jobsShape, a1', a2]
    | some p =>
      cases henv : env.persistOk with
      | true =>
        refine ⟨?_, ?_, ?_⟩ <;>
          simp [addAny, hA, hB, persistUpsert, henv, jobsShape, a1', a2]
      | false =>
        refine ⟨?_, ?_, ?_⟩ <;>
          simp [addAny, hA, hB, persistUpsert, henv, jobsShape, a1', a2]

theorem add_isOk (env : Env) (s : Spec) (cb : Cb) (m : Meta) (pid : Option String)
    (st : SchedState) (henv : env.persistOk = true) (hv : specValid s = true) :
    ∃ hs, (add env s cb m pid st).2 = .ok hs := by
  obtain ⟨stS, hs, hd⟩ := addSched_ok_of_valid env s cb pid st hv
  exact ⟨hs, (add_ok_eq env s cb m pid st stS hs henv hd).1⟩

theorem addAnyGo_ok (env : Env) (cbW : Cb) (m : Meta) (pid : Option String)
    (cs : List Spec) (i : Nat) (st : SchedState) (acc : List JHandle)
    (henv : env.persistOk = true) (hvs : ∀ c ∈ cs, specValid c = true) :
    ∃ ids, (addAnyGo env cbW m pid i cs st acc).2 = .ok ids := by
  induction cs generalizing i st acc with
  | nil => exact ⟨acc, rfl⟩
  | cons c rest ih =>
    simp only [addAnyGo]
    obtain ⟨hsc, hok⟩ := add_isOk env c cbW m (pid.map (fun p => childId p i)) st henv
      (hvs c (by simp))
    rcases ha : add env c cbW m (pid.map (fun p => childId p i)) st with ⟨st', ra⟩
    rw [ha] at hok
    simp only at hok
    subst hok
    exact ih (i + 1) st' (acc ++ hsc) (fun c' hc' => hvs c' (by simp [hc']))

theorem addAny_ok (env : Env) (cs : List Spec) (cb : Cb) (m : Meta) (x : String)
    (st : SchedState) (henv : env.persistOk = true)
    (hvs : ∀ c ∈ cs, specValid c = true) :
    ∃ ids, (addAny env cs cb m (some x) st).2 = .ok ids := by
  obtain ⟨ids, hok⟩ := addAnyGo_ok env (.anyWrap cb) m (some x) cs 0 st [] henv hvs
  rcases hA : addAnyGo env (.anyWrap cb) m (some x) 0 cs st [] with ⟨sA, rA⟩
  rw [hA] at hok
  simp only at hok
  subst hok
  simp only [addAny, hA]
  simp [persistUpsert, henv]

/-! ## Skipping unresolved records in `load_persisted_with_kinds` -/

theorem loadWKGo_skip (env : Env) (R : String → Option Nat) (rs : List PRec)
    (st : SchedState) (hnone : ∀ r ∈ rs, R r.id = none) :
    loadWKGo env R rs st = (st, .ok ()) := by
  induction rs generalizing st with
  | nil => rfl
  | cons r rest ih =>
    simp only [loadWKGo]
    rw [hnone r (by simp)]
    exact ih st (fun r' hr' => hnone r' (by simp [hr']))

theorem loadWKGo_append_skip (env : Env) (R : String → Option Nat)
    (pre rs : List PRec) (st : SchedState) (hnone : ∀ r ∈ pre, R r.id = none) :
    loadWKGo env R (pre ++ rs) st = loadWKGo env R rs st := by
  induction pre generalizing st with
  | nil => rfl
  | cons r rest ih =>
    simp only [List.cons_append, loadWKGo]
    rw [hnone r (by simp)]
    exact ih st (fun r' hr' => hnone r' (by simp [hr']))

/-! ## C3 — reload round-trip -/

/-- C3 (amended): provided the resolver recognises the persisted logical id
but not ids of other records in the store (in particular not the derived
child ids `x#i` a composite also persists), reload reconstructs exactly the
original registration's trigger set: (part 1) a store holding a plain record
for `x` reloads to the very job shapes (ids, logical ids, triggers, chain
kinds) that a fresh `add` of that spec produces, whatever callback and
metadata the original registration used; (part 2) a store holding a
composite (`_kind: any`) record for `x` — with the child records `x#i`
unresolved — reloads to exactly `add_any`'s job shapes, so each child's
triggers are registered exactly once.  If the resolver also resolves the
child records, the children's triggers are registered twice (see the
counterexample). -/
theorem C3_reload_roundtrip (env : Env) (R : String → Option Nat)
    (st : SchedState) (x : String) (m : Meta) (u : Nat)
    (henv : env.persistOk = true) (hres : R x = some u) :
    (∀ (s : Spec) (pre post : List PRec),
      specValid s = true →
      st.store = pre ++ ⟨x, .plain s, m⟩ :: post →
      (∀ r ∈ pre ++ post, R r.id = none) →
      ∀ (cb0 : Cb) (m0 : Meta) (st1 : SchedState),
        jobsShape st1 = jobsShape st → st1.fresh = st.fresh →
        (loadPersistedWithKinds env R st).2 = .ok () ∧
        jobsShape (loadPersistedWithKinds env R st).1 =
          jobsShape (add env s cb0 m0 (some x) st1).1) ∧
    (∀ (cs : List Spec) (pre post : List PRec),
      (∀ c ∈ cs, specValid c = true) →
      st.store = pre ++ ⟨x, .anyKind cs, m⟩ :: post →
      (∀ r ∈ pre ++ post, R r.id = none) →
      ∀ (cb0 : Cb) (m0 : Meta) (st1 : SchedState),
        jobsShape st1 = jobsShape st → st1.fresh = st.fresh →
        (loadPersistedWithKinds env R st).2 = .ok () ∧
        jobsShape (loadPersistedWithKinds env R st).1 =
          jobsShape (addAny env cs cb0 m0 (some x) st1).1) := by
  constructor
  · intro s pre post hv hsplit hnone cb0 m0 st1 hshape hfresh
    have hpre : ∀ r ∈ pre, R r.id = none := fun r hr => hnone r (List.mem_append_left _ hr)
    have hpost : ∀ r ∈ post, R r.id = none :=
      fun r hr => hnone r (List.mem_append_right _ hr)
    obtain ⟨hsH, hok⟩ := add_isOk env s (.user u) m (some x) st henv hv
    have hmain : loadPersistedWithKinds env R st =
        ((add env s (.user u) m (some x) st).1, .ok ()) := by
      simp only [loadPersistedWithKinds]
      rw [hsplit, loadWKGo_append_skip env R pre _ st hpre]
      simp only [loadWKGo, hres]
      rcases ha : add env s (.user u) m (some x) st with ⟨st', ra⟩
      rw [ha] at hok
      simp only at hok
      subst hok
      simp only
      exact loadWKGo_skip env R post st' hpost
    rw [hmain]
    refine ⟨rfl, ?_⟩
    exact (add_shape env s (.user u) cb0 m m0 (some x) st st1 hshape.symm hfresh.symm).1
  · intro cs pre post hvs hsplit hnone cb0 m0 st1 hshape hfresh
    have hpre : ∀ r ∈ pre, R r.id = none := fun r hr => hnone r (List.mem_append_left _ hr)
    have hpost : ∀ r ∈ post, R r.id = none :=
      fun r hr => hnone r (List.mem_append_right _ hr)
    obtain ⟨ids, hok⟩ := addAny_ok env cs (.user u) m x st henv hvs
    have hmain : loadPersistedWithKinds env R st =
        ((addAny env cs (.user u) m (some x) st).1, .ok ()) := by
      simp only [loadPersistedWithKinds]
      rw [hsplit, loadWKGo_append_skip env R pre _ st hpre]
      simp only [loadWKGo, hres]
      rcases ha : addAny env cs (.user u) m (some x) st with ⟨st', ra⟩
      rw [ha] at hok
      simp only at hok
      subst hok
      simp only
      exact loadWKGo_skip env R post st' hpost
    rw [hmain]
    refine ⟨rfl, ?_⟩
    exact (addAny_shape env cs (.user u) cb0 m m0 (some x) st st1 hshape.symm hfresh.symm).1

/-- C3 witness: the store `add_any` wrote for the one-child composite `"x"`
(child record `x#0` first, composite record last), reloaded with a resolver
recognising only `"x"`, reconstructs exactly the original `add_any` job
shapes — the child's cron trigger once. -/
theorem C3_reload_roundtrip_witness :
    resolveBase "x" = some 9 ∧
    stReload.store = [] ++
      (⟨"x#0", .plain (.atS (.timeOnly ⟨7, 30, 0⟩)), [("persist_id", "x#0")]⟩ : PRec) ::
      [⟨"x", .anyKind [.atS (.timeOnly ⟨7, 30, 0⟩)], []⟩] ∧
    (loadPersistedWithKinds envW resolveBase stReload).2 = .ok () ∧
    jobsShape (loadPersistedWithKinds envW resolveBase stReload).1 =
      jobsShape (addAny envW [.atS (.timeOnly ⟨7, 30, 0⟩)] (.user 1) [] (some "x")
        emptyState).1 := by
  have h := (C3_reload_roundtrip envW resolveBase stReload "x" [] 9 rfl (by decide)).1
    (.atS (.timeOnly ⟨7, 30, 0⟩)) [⟨"x#0", .plain (.atS (.timeOnly ⟨7, 30, 0⟩)),
      [("persist_id", "x#0")]⟩] [] rfl
  have h2 := (C3_reload_roundtrip envW resolveBase stReload "x" [] 9 rfl (by decide)).2
    [.atS (.timeOnly ⟨7, 30, 0⟩)]
    [⟨"x#0", .plain (.atS (.timeOnly ⟨7, 30, 0⟩)), [("persist_id", "x#0")]⟩] []
    (by decide) (by decide) (by decide) (.user 1) [] emptyState (by decide) (by decide)
  exact ⟨by decide, by decide, h2.1, h2.2⟩

/-- C3 counterexample: with a resolver that recognises every id (the child
ids `x#0…` included), the same store reloads the child's trigger twice —
once from the child record, once from the composite record — while the
original `add_any` registered it once; so "reload registers each child's
triggers exactly once" fails as stated. -/
theorem C3_reload_roundtrip_cex :
    (loadPersistedWithKinds envW resolveAll stReload).2 = .ok () ∧
    trigsOf (loadPersistedWithKinds envW resolveAll stReload).1 =
      [.cron none none none 7 30 0, .cron none none none 7 30 0] ∧
    trigsOf (addAny envW [.atS (.timeOnly ⟨7, 30, 0⟩)] (.user 1) [] (some "x")
      emptyState).1 = [.cron none none none 7 30 0] := by
  refine ⟨by decide, by decide, by decide⟩

/-! ## C8 — persistence write failure surfaces, jobs are kept -/

/-- C8: when the final persistence-write step of an `add` carrying a logical
id fails, the failure is surfaced to the caller of `add`, and the resulting
in-memory job store is exactly the dispatch's (it contains every job the
call registered and equals the job store of the same call with a healthy
persistence layer — nothing is rolled back). -/
theorem C8_persist_failure_no_rollback (env : Env) (spec : Spec) (cb : Cb)
    (meta : Meta) (x : String) (st st1 : SchedState) (hs : List JHandle)
    (henv : env.persistOk = false)
    (hsched : addSched env spec cb (some x) st = (st1, .ok hs)) :
    add env spec cb meta (some x) st = (st1, .err .persistFail) ∧
    (∀ j ∈ st.jobs, j ∈ st1.jobs) ∧
    st1.jobs = (add { env with persistOk := true } spec cb meta (some x) st).1.jobs := by
  refine ⟨?_, ?_, ?_⟩
  · simp only [add, hsched]
    simp [persistUpsert, henv]
  · intro j hj
    obtain ⟨tl, htl, -, -⟩ := addSched_jobs env spec cb (some x) st
    rw [hsched] at htl
    simp only at htl
    rw [htl]
    exact List.mem_append_left _ hj
  · rw [add_jobs, addSched_persistOk, hsched]

/-- C8 witness: adding the daily-07:30 spec under id `"wake"` with a failing
persistence layer raises the failure and keeps the registered cron job. -/
theorem C8_persist_failure_no_rollback_witness :
    envWFail.persistOk = false ∧
    addSched envWFail (.atS (.timeOnly ⟨7, 30, 0⟩)) (.user 1) (some "wake") emptyState =
      ((addSched envWFail (.atS (.timeOnly ⟨7, 30, 0⟩)) (.user 1) (some "wake") emptyState).1,
        .ok [.real 0]) ∧
    add envWFail (.atS (.timeOnly ⟨7, 30, 0⟩)) (.user 1) [] (some "wake") emptyState =
      ((addSched envWFail (.atS (.timeOnly ⟨7, 30, 0⟩)) (.user 1) (some "wake") emptyState).1,
        .err .persistFail) :=
  ⟨rfl, by decide,
    (C8_persist_failure_no_rollback envWFail (.atS (.timeOnly ⟨7, 30, 0⟩)) (.user 1) []
      "wake" emptyState _ [.real 0] rfl (by decide)).1⟩

end NuSched
